import Mathlib

set_option maxHeartbeats 1000000

/-!
Verification of the Sudoku solver in src/Sudoko/SudokoSolver.py.

The Python program represents the 81 cells as mutable Python sets shared
between overlapping views (rows, columns, squares, triplets).  Following the
flat-array reading of that aliasing discipline, the embedding represents a
game state as a function from flat positions (0..80, row-major) to candidate
sets, and every view (the 27 "nines" and the 54 triplets of `setupGame`) as a
fixed list of positions.  Mutating a cell through one view is then a
`Function.update` at its position, visible through every other view, exactly
as in the source.  Python set iteration over small digit sets is embedded as
iteration in increasing numeric order, and the `is` identity tests of
`xWing1`/`swordfish1` become position (index) comparisons, which is faithful
because distinct grid positions always hold distinct set objects.
-/

/-- A cell is a set of candidate digits, as in the Python source where each
cell is a Python set of ints. -/
abbrev Cell := Finset ℕ

/-- A game state: candidate set of each flat position `9*row + col`. -/
abbrev Grid := ℕ → Cell

/-- Total number of remaining candidates across the 81 cells; this is
`len(list(pandas.core.common.flatten(gameNines[0:9])))` in
`applyAndValidate`. -/
def totalLen (g : Grid) : ℕ := ∑ p ∈ Finset.range 81, (g p).card

/-- Positions of the 9 rows (`gameRows` in `setupGame`). -/
def gameRowsIdx : List (List ℕ) :=
  (List.range 9).map (fun r => (List.range 9).map (fun c => 9 * r + c))

/-- Positions of the 9 columns (`gameCols = zip(*gameRows)` in `setupGame`). -/
def gameColsIdx : List (List ℕ) :=
  (List.range 9).map (fun c => (List.range 9).map (fun r => 9 * r + c))

/-- Positions of the 3x3 square with index `s`, cells in row-major order,
matching the `gameSquares` construction in `setupGame`. -/
def squareIdx (s : ℕ) : List ℕ :=
  (List.range 3).flatMap
    (fun dr => (List.range 3).map (fun dc => 9 * (3 * (s / 3) + dr) + (3 * (s % 3) + dc)))

/-- Positions of the 9 squares (`gameSquares` in `setupGame`). -/
def gameSquaresIdx : List (List ℕ) := (List.range 9).map squareIdx

/-- The 27 "nines": rows 0..8, columns 9..17, squares 18..26, i.e.
`gameNines = gameRows + gameCols + gameSquares`. -/
def gameNinesIdx : List (List ℕ) := gameRowsIdx ++ gameColsIdx ++ gameSquaresIdx

/-- A triplet record: member cells, line sisters, square sisters, i.e. the
`[ [triplet], [lineSisters], [squareSisters] ]` entries of `gameTriplets`. -/
abbrev TripletIdx := List ℕ × List ℕ × List ℕ

/-- The 27 row triplets of `setupGame`: for each row `ix` and offset
`t ∈ {0,3,6}`, the three cells `row[t:t+3]`, the six remaining row cells and
the six remaining cells of the containing square. -/
def rowTripletsIdx : List TripletIdx :=
  (List.range 9).flatMap (fun ix =>
    ([0, 3, 6] : List ℕ).map (fun t =>
      let row := gameRowsIdx.getD ix []
      let square := squareIdx ((ix / 3) * 3 + t / 3)
      (((row.drop t).take 3),
       (row.take t ++ row.drop (t + 3)),
       (square.take (3 * (ix % 3)) ++ square.drop (3 * (ix % 3) + 3)))))

/-- The 27 column triplets of `setupGame`: for each column `ix` and offset
`t ∈ {0,3,6}`, the three cells `col[t:t+3]`, the six remaining column cells
and the six remaining cells of the containing square. -/
def colTripletsIdx : List TripletIdx :=
  (List.range 9).flatMap (fun ix =>
    ([0, 3, 6] : List ℕ).map (fun t =>
      let col := gameColsIdx.getD ix []
      let square := squareIdx (ix / 3 + t)
      (((col.drop t).take 3),
       (col.take t ++ col.drop (t + 3)),
       (([0, 3, 6] : List ℕ).flatMap (fun c =>
         ((square.drop c).take (ix % 3) ++ (square.drop (c + ix % 3 + 1)).take (2 - ix % 3)))))))

/-- The 54 triplets, rows first then columns, as built by `setupGame`. -/
def gameTripletsIdx : List TripletIdx := rowTripletsIdx ++ colTripletsIdx

/-- One elimination step shared by all rules: if `cond` holds of the current
value of position `p`, replace that value by `h` of it and count one
elimination, otherwise do nothing.  This is the common shape of the innermost
mutation loops of the Python rules (`c -= cell`, `c &= cell`, `cell -= {num}`,
each guarded by the check recorded in `cond` and followed by `count += 1`). -/
def condUpdateStep (cond : ℕ → Cell → Bool) (h : Cell → Cell)
    (s : Grid × ℕ) (p : ℕ) : Grid × ℕ :=
  if cond p (s.1 p) then (Function.update s.1 p (h (s.1 p)), s.2 + 1) else s

/-- Body of the cell loop of `eliminateFound`: if the cell at `cp` is a
singleton, remove its digit from every other intersecting cell of the nine
(`others = [c for c in nine if c is not cell and c & cell]; c -= cell`). -/
def elimFoundCell (nine : List ℕ) (s : Grid × ℕ) (cp : ℕ) : Grid × ℕ :=
  if (s.1 cp).card = 1 then
    (nine.filter (fun q => q ≠ cp ∧ (s.1 q ∩ s.1 cp).Nonempty)).foldl
      (condUpdateStep (fun _ _ => true) (fun v => v \ s.1 cp)) s
  else s

/-- Rule `eliminateFound`: for every nine, eliminate each found digit from
the other cells of the nine.  Returns the new state and the elimination
count. -/
def eliminateFound (g : Grid) : Grid × ℕ :=
  gameNinesIdx.foldl (fun s nine => nine.foldl (elimFoundCell nine) s) (g, 0)

/-- Body of the digit loop of `uniqueCell`: if digit `i` appears in exactly
one cell of the nine and that cell is not yet a singleton, restrict that cell
to `{i}` (`foundIn[0] &= { i }`). -/
def uniqueCellDigit (nine : List ℕ) (s : Grid × ℕ) (i : ℕ) : Grid × ℕ :=
  match nine.filter (fun q => i ∈ s.1 q) with
  | [q] => if 1 < (s.1 q).card then (Function.update s.1 q (s.1 q ∩ {i}), s.2 + 1) else s
  | _ => s

/-- Rule `uniqueCell`: for every nine and every digit 1..9 found in only one
cell, reduce that cell to the singleton of the digit. -/
def uniqueCell (g : Grid) : Grid × ℕ :=
  gameNinesIdx.foldl (fun s nine => (List.range' 1 9).foldl (uniqueCellDigit nine) s) (g, 0)

/-- Body of the cell loop of `nakedTuple`: if the candidate set `cell` at
`cp` has size `k > 1` and exactly `k` cells of the nine are subsets of it,
remove `cell`'s digits from every other intersecting cell of the nine. -/
def nakedTupleCell (nine : List ℕ) (s : Grid × ℕ) (cp : ℕ) : Grid × ℕ :=
  let cell := s.1 cp
  if 1 < cell.card ∧ nine.countP (fun q => s.1 q ⊆ cell) = cell.card then
    (nine.filter (fun q => ¬ s.1 q ⊆ cell ∧ (s.1 q ∩ cell).Nonempty)).foldl
      (condUpdateStep (fun _ _ => true) (fun v => v \ cell)) s
  else s

/-- Rule `nakedTuple`. -/
def nakedTuple (g : Grid) : Grid × ℕ :=
  gameNinesIdx.foldl (fun s nine => nine.foldl (nakedTupleCell nine) s) (g, 0)

/-- Body of the cell loop of `hiddenTuple`: if the candidate set `cell` at
`cp` has size `k > 1`, is a subset of exactly `k` cells of the nine and
partially intersects no other cell, intersect every strictly larger superset
cell with `cell`. -/
def hiddenTupleCell (nine : List ℕ) (s : Grid × ℕ) (cp : ℕ) : Grid × ℕ :=
  let cell := s.1 cp
  if 1 < cell.card ∧ nine.countP (fun q => cell ⊆ s.1 q) = cell.card ∧
      nine.countP (fun q => ¬ cell ⊆ s.1 q ∧ (cell ∩ s.1 q).Nonempty) = 0 then
    (nine.filter (fun q => cell ⊆ s.1 q ∧ cell.card < (s.1 q).card)).foldl
      (condUpdateStep (fun _ _ => true) (fun v => v ∩ cell)) s
  else s

/-- Rule `hiddenTuple`. -/
def hiddenTuple (g : Grid) : Grid × ℕ :=
  gameNinesIdx.foldl (fun s nine => nine.foldl (hiddenTupleCell nine) s) (g, 0)

/-- Digits present in the still-undetermined cells of a triplet
(`{num for cell in [c for c in trip[0] if len(c) > 1] for num in cell}`). -/
def tripletDigits (g : Grid) (cells : List ℕ) : Finset ℕ :=
  (cells.filter (fun p => 1 < (g p).card)).foldr (fun p acc => g p ∪ acc) ∅

/-- Digits present in a sister list (`{num for cell in trip[i] for num in cell}`). -/
def sisterDigits (g : Grid) (cells : List ℕ) : Finset ℕ :=
  cells.foldr (fun p acc => g p ∪ acc) ∅

/-- Body of the digit loop of `lockedCandidates` for a fixed triplet: if the
digit is in the line sisters but not the square sisters, remove it from every
line-sister cell containing it, and symmetrically for the square sisters. -/
def lockedNum (lineSis squSis : List ℕ) (inLine inSquare : Finset ℕ)
    (s : Grid × ℕ) (num : ℕ) : Grid × ℕ :=
  let s1 :=
    if num ∈ inLine ∧ num ∉ inSquare then
      lineSis.foldl (condUpdateStep (fun _ v => decide (num ∈ v)) (fun v => v \ {num})) s
    else s
  if num ∈ inSquare ∧ num ∉ inLine then
    squSis.foldl (condUpdateStep (fun _ v => decide (num ∈ v)) (fun v => v \ {num})) s1
  else s1

/-- Body of the triplet loop of `lockedCandidates`. -/
def lockedTriplet (s : Grid × ℕ) (t : TripletIdx) : Grid × ℕ :=
  let inTrip := tripletDigits s.1 t.1
  let inLine := sisterDigits s.1 t.2.1
  let inSquare := sisterDigits s.1 t.2.2
  (inTrip.sort (· ≤ ·)).foldl (lockedNum t.2.1 t.2.2 inLine inSquare) s

/-- Rule `lockedCandidates`, over the 54 precomputed triplets. -/
def lockedCandidates (g : Grid) : Grid × ℕ :=
  gameTripletsIdx.foldl lockedTriplet (g, 0)

/-- `[ix for ix, cell in enumerate(line) if n in cell]` of `xWing1`. -/
def idxsWith (g : Grid) (line : List ℕ) (n : ℕ) : List ℕ :=
  (List.range line.length).filter (fun ix => n ∈ g (line.getD ix 0))

/-- Body of the digit loop of `xWing1`: if the digit's positions in the two
lines are the same two indices, remove it from the two perpendicular lines
outside the four keep cells (the `k is cell` identity test becomes a position
test). -/
def xWingStep (line1 line2 : List ℕ) (perps : List (List ℕ)) (a : Grid × ℕ) (n : ℕ) :
    Grid × ℕ :=
  let l1 := idxsWith a.1 line1 n
  let l2 := idxsWith a.1 line2 n
  if l1.length = 2 ∧ l1 = l2 then
    let keep : List ℕ := [line1.getD (l1.getD 0 0) 0, line1.getD (l1.getD 1 0) 0,
                          line2.getD (l1.getD 0 0) 0, line2.getD (l1.getD 1 0) 0]
    (perps.getD (l1.getD 0 0) [] ++ perps.getD (l1.getD 1 0) []).foldl
      (condUpdateStep (fun p v => decide (n ∈ v ∧ p ∉ keep)) (fun v => v \ {n})) a
  else a

/-- Helper `xWing1`: run the digit loop over 1..9. -/
def xWing1 (s : Grid × ℕ) (line1 line2 : List ℕ) (perps : List (List ℕ)) : Grid × ℕ :=
  (List.range' 1 9).foldl (xWingStep line1 line2 perps) s

/-- Rule `xWing`: all row pairs against the columns, then all column pairs
against the rows, as in the Python enumeration bounds. -/
def xWing (g : Grid) : Grid × ℕ :=
  let s1 := (List.range 8).foldl (fun s i1 =>
    (List.range' (i1 + 1) (8 - i1)).foldl (fun s2 i2 =>
      xWing1 s2 (gameRowsIdx.getD i1 []) (gameRowsIdx.getD i2 []) gameColsIdx) s) (g, 0)
  (List.range 8).foldl (fun s i1 =>
    (List.range' (i1 + 1) (8 - i1)).foldl (fun s2 i2 =>
      xWing1 s2 (gameColsIdx.getD i1 []) (gameColsIdx.getD i2 []) gameRowsIdx) s) s1

/-- `[ix for ix, cell in enumerate(line) if n in cell and len(cell) > 1]` of
`swordfish1`. -/
def idxsWithMulti (g : Grid) (line : List ℕ) (n : ℕ) : List ℕ :=
  (List.range line.length).filter (fun ix => n ∈ g (line.getD ix 0) ∧ 1 < (g (line.getD ix 0)).card)

/-- Body of the digit loop of `swordfish1`: if each of the three lines has at
least two multi-candidate positions for the digit and those positions span
exactly three indices, remove the digit from the three perpendicular lines
outside the keep cells. -/
def swordfishStep (line1 line2 line3 : List ℕ) (perps : List (List ℕ)) (a : Grid × ℕ)
    (n : ℕ) : Grid × ℕ :=
  let l1 := idxsWithMulti a.1 line1 n
  let l2 := idxsWithMulti a.1 line2 n
  let l3 := idxsWithMulti a.1 line3 n
  let fip := (l1.toFinset ∪ l2.toFinset ∪ l3.toFinset).sort (· ≤ ·)
  if 2 ≤ l1.length ∧ 2 ≤ l2.length ∧ 2 ≤ l3.length ∧ fip.length = 3 then
    let keep : List ℕ := fip.map (fun ix => line1.getD ix 0) ++
                         fip.map (fun ix => line2.getD ix 0) ++
                         fip.map (fun ix => line3.getD ix 0)
    (perps.getD (fip.getD 0 0) [] ++ perps.getD (fip.getD 1 0) [] ++
        perps.getD (fip.getD 2 0) []).foldl
      (condUpdateStep (fun p v => decide (n ∈ v ∧ p ∉ keep)) (fun v => v \ {n})) a
  else a

/-- Helper `swordfish1`: run the digit loop over 1..9. -/
def swordfish1 (s : Grid × ℕ) (line1 line2 line3 : List ℕ) (perps : List (List ℕ)) :
    Grid × ℕ :=
  (List.range' 1 9).foldl (swordfishStep line1 line2 line3 perps) s

/-- Rule `swordfish`: all row triples against the columns, then all column
triples against the rows. -/
def swordfish (g : Grid) : Grid × ℕ :=
  let s1 := (List.range 7).foldl (fun s i1 =>
    (List.range' (i1 + 1) (7 - i1)).foldl (fun s2 i2 =>
      (List.range' (i2 + 1) (8 - i2)).foldl (fun s3 i3 =>
        swordfish1 s3 (gameRowsIdx.getD i1 []) (gameRowsIdx.getD i2 [])
          (gameRowsIdx.getD i3 []) gameColsIdx) s2) s) (g, 0)
  (List.range 7).foldl (fun s i1 =>
    (List.range' (i1 + 1) (7 - i1)).foldl (fun s2 i2 =>
      (List.range' (i2 + 1) (8 - i2)).foldl (fun s3 i3 =>
        swordfish1 s3 (gameColsIdx.getD i1 []) (gameColsIdx.getD i2 [])
          (gameColsIdx.getD i3 []) gameRowsIdx) s2) s) s1

/-- Run rule `F` on the current state and add its elimination count
(`count += rule(...)` in `applyAndValidate`). -/
def chainRule (F : Grid → Grid × ℕ) (s : Grid × ℕ) : Grid × ℕ :=
  let r := F s.1
  (r.1, s.2 + r.2)

/-- Run rule `F` only when no eliminations happened yet in this pass
(`if (count == 0): count += rule(...)`). -/
def gatedRule (F : Grid → Grid × ℕ) (s : Grid × ℕ) : Grid × ℕ :=
  if s.2 = 0 then chainRule F s else s

/-- One pass of the rule loop of `applyAndValidate`: `eliminateFound` and
`uniqueCell` always run; each remaining rule runs only while the pass count
is still zero. -/
def onePass (g : Grid) : Grid × ℕ :=
  gatedRule swordfish (gatedRule xWing (gatedRule lockedCandidates (gatedRule hiddenTuple
    (gatedRule nakedTuple (chainRule uniqueCell (chainRule eliminateFound (g, 0)))))))

/-- The rule loop of `applyAndValidate`: repeat passes while the total
candidate count strictly decreases (`if (newlen < inlen): inlen = newlen
else: done = True`). -/
def propagate (g : Grid) : Grid :=
  if h : totalLen (onePass g).1 < totalLen g then propagate (onePass g).1 else (onePass g).1
termination_by totalLen g
decreasing_by exact h

/-- Final classification of `applyAndValidate`: `-1` if some cell is empty,
else `1` if the flat candidate count is 81, else `0`. -/
def classify (f : Grid) : Int :=
  if (List.range 81).any (fun p => f p = ∅) then -1
  else if totalLen f = 81 then 1 else 0

/-- `applyAndValidate`: reduce to a fixpoint, then classify.  The Python
function mutates the state in place and returns the classification; the
embedding returns both. -/
def applyAndValidate (g : Grid) : Grid × Int :=
  (propagate g, classify (propagate g))

/-- Initial candidate set of a cell from a puzzle value
(`set(range(1, 10)) if (cell == 0) else { cell }`). -/
def startCell (v : ℕ) : Cell := if v = 0 then Finset.Icc 1 9 else {v}

/-- The start state built from the puzzle rows in `sudoku_solver`. -/
def startState (puzzle : List (List ℕ)) : Grid :=
  fun p => startCell ((puzzle.getD (p / 9) []).getD (p % 9) 0)

/-- The coordinate scan of `sudoku_solver`: the first flat position (row-major)
whose cell still has more than one candidate. -/
def firstUnresolved (g : Grid) : Option ℕ :=
  (List.range 81).find? (fun p => 1 < (g p).card)

/-- The branching step of `sudoku_solver`: clone the state once per candidate
of the first unresolved cell, restricting that cell to the candidate
(`newGame[hypoCoords[0]][hypoCoords[1]] &= { n }`).  The embedding enumerates
the candidates canonically in increasing order; the interpreter iterates the
deep-copied set object in hash-slot order, which can differ from increasing
order (see `pyIter`/`rebuildSet` and the correction of the branching claim).
Which states the loop produces and counts is invariant under the enumeration
order; the order of the children inside the queue is not. -/
def spawnChildren (g : Grid) : List Grid :=
  match firstUnresolved g with
  | none => []
  | some p => ((g p).sort (· ≤ ·)).map (fun n => Function.update g p (g p ∩ {n}))

/-- `list(cell)[0]`: the least element of a cell (the element, for the
singleton cells this is applied to). -/
def extractCell (s : Cell) : ℕ := (s.sort (· ≤ ·)).headD 0

/-- The solved-grid extraction `[[list(cell)[0] for cell in row] for row in
gameNines[0:9]]`. -/
def extractGrid (f : Grid) : List (List ℕ) :=
  (List.range 9).map (fun r => (List.range 9).map (fun c => extractCell (f (9 * r + c))))

/-- Caller-visible outcomes of `sudoku_solver`: the returned grid, the two
raised exceptions of the search ("No valid solutions" / "Multiple solutions")
and the `ValueError` of input validation, as result variants. -/
inductive SolveResult where
  | uniqueSolution : List (List ℕ) → SolveResult
  | noSolution : SolveResult
  | multipleSolutions : SolveResult
  | malformedInput : SolveResult
deriving DecidableEq, Repr

/-- A concrete complete Sudoku grid, used to instantiate theorems. -/
def completeGrid : List (List ℕ) :=
  [[1, 2, 3, 4, 5, 6, 7, 8, 9],
   [4, 5, 6, 7, 8, 9, 1, 2, 3],
   [7, 8, 9, 1, 2, 3, 4, 5, 6],
   [2, 3, 1, 5, 6, 4, 8, 9, 7],
   [5, 6, 4, 8, 9, 7, 2, 3, 1],
   [8, 9, 7, 2, 3, 1, 5, 6, 4],
   [3, 1, 2, 6, 4, 5, 9, 7, 8],
   [6, 4, 5, 9, 7, 8, 3, 1, 2],
   [9, 7, 8, 3, 1, 2, 6, 4, 5]]

/-- The all-blank puzzle, used to instantiate theorems. -/
def zerosPuzzle : List (List ℕ) := List.replicate 9 (List.replicate 9 0)

/-- The grid in which every cell still admits every digit; this is the start
state of the all-blank puzzle. -/
def uniformGrid : Grid := fun _ => Finset.Icc 1 9

/-! Basic combinatorial facts about the fixed view index lists. -/

/-- Every nine is a duplicate-free list of 9 positions below 81. -/
theorem ninesFacts : ∀ nine ∈ gameNinesIdx, nine.Nodup ∧ nine.length = 9 ∧ ∀ p ∈ nine, p < 81 := by
  decide

/-- Sister lists of every triplet are duplicate-free position lists below 81,
mutually disjoint and disjoint from the triplet cells (distinct grid cells
are distinct Python set objects). -/
theorem tripFacts : ∀ t ∈ gameTripletsIdx,
    t.2.1.Nodup ∧ t.2.2.Nodup ∧ (∀ p ∈ t.2.1, p < 81) ∧ (∀ p ∈ t.2.2, p < 81) ∧
    (∀ p ∈ t.1, p < 81) ∧ (∀ p ∈ t.2.1, p ∉ t.2.2) ∧
    (∀ p ∈ t.1, p ∉ t.2.1 ∧ p ∉ t.2.2) := by
  decide

/-- Each row index list has length 9 and is one of the nines. -/
theorem rowLineFacts : ∀ i < 9, (gameRowsIdx.getD i []).length = 9 ∧
    gameRowsIdx.getD i [] ∈ gameNinesIdx := by decide

/-- Each column index list has length 9 and is one of the nines. -/
theorem colLineFacts : ∀ i < 9, (gameColsIdx.getD i []).length = 9 ∧
    gameColsIdx.getD i [] ∈ gameNinesIdx := by decide

/-- Concatenating two distinct columns gives a duplicate-free list of
positions below 81 (columns are pairwise disjoint). -/
theorem colsConcat2 : ∀ i < 9, ∀ j < 9, i ≠ j →
    ((gameColsIdx.getD i [] ++ gameColsIdx.getD j []).Nodup ∧
     ∀ p ∈ gameColsIdx.getD i [] ++ gameColsIdx.getD j [], p < 81) := by decide

/-- Concatenating two distinct rows gives a duplicate-free list of positions
below 81. -/
theorem rowsConcat2 : ∀ i < 9, ∀ j < 9, i ≠ j →
    ((gameRowsIdx.getD i [] ++ gameRowsIdx.getD j []).Nodup ∧
     ∀ p ∈ gameRowsIdx.getD i [] ++ gameRowsIdx.getD j [], p < 81) := by decide

/-- Three pairwise distinct lines of a family with pairwise disjoint lines
concatenate to a duplicate-free list of positions below 81. -/
theorem linesConcat3 {A : List (List ℕ)}
    (pair : ∀ i < 9, ∀ j < 9, i ≠ j →
      ((A.getD i [] ++ A.getD j []).Nodup ∧ ∀ p ∈ A.getD i [] ++ A.getD j [], p < 81)) :
    ∀ i < 9, ∀ j < 9, ∀ k < 9, i ≠ j → i ≠ k → j ≠ k →
    ((A.getD i [] ++ A.getD j [] ++ A.getD k []).Nodup ∧
     ∀ p ∈ A.getD i [] ++ A.getD j [] ++ A.getD k [], p < 81) := by
  intro i hi j hj k hk hij hik hjk
  obtain ⟨hij1, hij2⟩ := pair i hi j hj hij
  obtain ⟨hik1, hik2⟩ := pair i hi k hk hik
  obtain ⟨hjk1, hjk2⟩ := pair j hj k hk hjk
  rw [List.nodup_append] at hij1 hik1 hjk1
  constructor
  · rw [List.append_assoc, List.nodup_append, List.nodup_append]
    refine ⟨hij1.1, ⟨hij1.2.1, hjk1.2.1, hjk1.2.2⟩, ?_⟩
    intro p hp
    rw [List.mem_append]
    rintro (hq | hq)
    · exact hij1.2.2 hp hq
    · exact hik1.2.2 hp hq
  · intro p hp
    rw [List.append_assoc, List.mem_append, List.mem_append] at hp
    rcases hp with hp | hp | hp
    · exact hij2 p (List.mem_append_left _ hp)
    · exact hij2 p (List.mem_append_right _ hp)
    · exact hjk2 p (List.mem_append_right _ hp)

/-! Generic facts about elimination steps.  `GoodUnit s t` records that the
state `t` was produced from `s` by a run of counted eliminations: the count
never decreases, candidate sets only shrink, an unchanged count means an
unchanged grid, and every counted elimination removed at least one
candidate. -/

/-- Relation between a state and the result of running counted eliminations
on it. -/
def GoodUnit (s t : Grid × ℕ) : Prop :=
  s.2 ≤ t.2 ∧ (∀ p, t.1 p ⊆ s.1 p) ∧ (t.2 = s.2 → t.1 = s.1) ∧
    totalLen t.1 + t.2 ≤ totalLen s.1 + s.2

theorem goodUnit_refl (s : Grid × ℕ) : GoodUnit s s :=
  ⟨le_refl _, fun _ => le_refl _, fun _ => rfl, le_refl _⟩

theorem goodUnit_trans {s t u : Grid × ℕ} (h1 : GoodUnit s t) (h2 : GoodUnit t u) :
    GoodUnit s u := by
  obtain ⟨c1, m1, z1, l1⟩ := h1
  obtain ⟨c2, m2, z2, l2⟩ := h2
  refine ⟨le_trans c1 c2, fun p => subset_trans (m2 p) (m1 p), ?_, le_trans l2 l1⟩
  intro hz
  have ht : t.2 = s.2 := le_antisymm (hz ▸ c2) c1
  have hu : u.2 = t.2 := by omega
  rw [z2 hu, z1 ht]

theorem goodUnit_foldl {α : Type} {f : Grid × ℕ → α → Grid × ℕ} {l : List α}
    (h : ∀ s, ∀ a ∈ l, GoodUnit s (f s a)) : ∀ s, GoodUnit s (l.foldl f s) := by
  induction l with
  | nil => exact fun s => goodUnit_refl s
  | cons a tl ih =>
    intro s
    exact goodUnit_trans (h s a (List.mem_cons_self a tl))
      (ih (fun s b hb => h s b (List.mem_cons_of_mem a hb)) (f s a))

theorem goodUnit_foldl_eq {α : Type} {f : Grid × ℕ → α → Grid × ℕ} {l : List α}
    (h : ∀ s, ∀ a ∈ l, GoodUnit s (f s a)) :
    ∀ s, (l.foldl f s).2 = s.2 → l.foldl f s = s ∧ ∀ a ∈ l, f s a = s := by
  induction l with
  | nil => exact fun s _ => ⟨rfl, by simp⟩
  | cons a tl ih =>
    intro s hz
    have hhead := h s a (List.mem_cons_self a tl)
    have htl : ∀ s, ∀ b ∈ tl, GoodUnit s (f s b) :=
      fun s b hb => h s b (List.mem_cons_of_mem a hb)
    have hc1 : s.2 ≤ (f s a).2 := hhead.1
    have hc2 : (f s a).2 ≤ (tl.foldl f (f s a)).2 := (goodUnit_foldl htl (f s a)).1
    rw [List.foldl_cons] at hz
    have hfa : (f s a).2 = s.2 := by omega
    have hfa1 : (f s a).1 = s.1 := hhead.2.2.1 hfa
    have hfas : f s a = s := Prod.ext hfa1 hfa
    rw [hfas] at hz
    rw [List.foldl_cons, hfas]
    obtain ⟨h1, h2⟩ := ih htl s hz
    refine ⟨h1, ?_⟩
    intro b hb
    rcases List.mem_cons.mp hb with hb | hb
    · subst hb; exact hfas
    · exact h2 b hb

theorem foldl_fixed {α β : Type} {f : β → α → β} {l : List α} {x : β}
    (h : ∀ a ∈ l, f x a = x) : l.foldl f x = x := by
  induction l with
  | nil => rfl
  | cons a tl ih =>
    rw [List.foldl_cons, h a (List.mem_cons_self a tl)]
    exact ih (fun b hb => h b (List.mem_cons_of_mem a hb))

/-- Candidate count of a grid after updating one of the 81 positions. -/
theorem totalLen_update (g : Grid) (p : ℕ) (v : Cell) (hp : p < 81) :
    totalLen (Function.update g p v) + (g p).card = totalLen g + v.card := by
  have hmem : p ∈ Finset.range 81 := Finset.mem_range.mpr hp
  have h1 : totalLen (Function.update g p v) =
      v.card + ∑ q ∈ Finset.range 81 \ {p}, (g q).card := by
    unfold totalLen
    calc ∑ q ∈ Finset.range 81, (Function.update g p v q).card
        = ∑ q ∈ Finset.range 81, Function.update (fun q => (g q).card) p v.card q :=
          Finset.sum_congr rfl
            (fun q _ => Function.apply_update (fun _ s => Finset.card s) g p v q)
      _ = v.card + ∑ q ∈ Finset.range 81 \ {p}, (g q).card :=
          Finset.sum_update_of_mem hmem _ _
  have h2 : totalLen g = (g p).card + ∑ q ∈ Finset.range 81 \ {p}, (g q).card := by
    rw [← Finset.erase_eq]
    exact (Finset.add_sum_erase _ _ hmem).symm
  omega

/-- Closed form of the innermost elimination fold: grid after the fold. -/
theorem condUpdateFold_fst (cond : ℕ → Cell → Bool) (h : Cell → Cell) :
    ∀ (l : List ℕ), l.Nodup → ∀ (g : Grid) (c : ℕ) (q : ℕ),
    (l.foldl (condUpdateStep cond h) (g, c)).1 q =
      if q ∈ l ∧ cond q (g q) = true then h (g q) else g q := by
  intro l
  induction l with
  | nil => intro _ g c q; simp
  | cons a tl ih =>
    intro hnd g c q
    have hna : a ∉ tl := (List.nodup_cons.mp hnd).1
    have hntl : tl.Nodup := (List.nodup_cons.mp hnd).2
    rw [List.foldl_cons]
    by_cases ha : cond a (g a) = true
    · have hstep : condUpdateStep cond h (g, c) a =
          (Function.update g a (h (g a)), c + 1) := by
        unfold condUpdateStep; simp [ha]
      rw [hstep, ih hntl]
      by_cases hq : q = a
      · subst hq
        have h1 : Function.update g q (h (g q)) q = h (g q) := Function.update_same _ _ _
        rw [if_neg (fun hc : q ∈ tl ∧ _ => hna (h1 ▸ hc).1), h1]
        rw [if_pos ⟨List.mem_cons_self q tl, ha⟩]
      · have h1 : Function.update g a (h (g a)) q = g q := Function.update_noteq hq _ _
        rw [h1]
        by_cases hqtl : q ∈ tl
        · have hqcons : q ∈ a :: tl := List.mem_cons_of_mem a hqtl
          by_cases hcq : cond q (g q) = true
          · rw [if_pos ⟨hqtl, hcq⟩, if_pos ⟨hqcons, hcq⟩]
          · rw [if_neg (fun hc => hcq hc.2), if_neg (fun hc => hcq hc.2)]
        · rw [if_neg (fun hc => hqtl hc.1),
            if_neg (fun hc => (List.mem_cons.mp hc.1).elim hq hqtl)]
    · have hstep : condUpdateStep cond h (g, c) a = (g, c) := by
        unfold condUpdateStep; simp [ha]
      rw [hstep, ih hntl]
      by_cases hq : q = a
      · subst hq
        rw [if_neg (fun hc : q ∈ tl ∧ _ => hna hc.1),
          if_neg (fun hc : q ∈ q :: tl ∧ _ => ha hc.2)]
      · by_cases hqtl : q ∈ tl
        · by_cases hcq : cond q (g q) = true
          · rw [if_pos ⟨hqtl, hcq⟩, if_pos ⟨List.mem_cons_of_mem a hqtl, hcq⟩]
          · rw [if_neg (fun hc => hcq hc.2), if_neg (fun hc => hcq hc.2)]
        · rw [if_neg (fun hc => hqtl hc.1),
            if_neg (fun hc => (List.mem_cons.mp hc.1).elim hq hqtl)]

/-- Closed form of the innermost elimination fold: count after the fold. -/
theorem condUpdateFold_snd (cond : ℕ → Cell → Bool) (h : Cell → Cell) :
    ∀ (l : List ℕ), l.Nodup → ∀ (g : Grid) (c : ℕ),
    (l.foldl (condUpdateStep cond h) (g, c)).2 = c + l.countP (fun q => cond q (g q)) := by
  intro l
  induction l with
  | nil => intro _ g c; simp
  | cons a tl ih =>
    intro hnd g c
    have hna : a ∉ tl := (List.nodup_cons.mp hnd).1
    have hntl : tl.Nodup := (List.nodup_cons.mp hnd).2
    rw [List.foldl_cons]
    by_cases ha : cond a (g a) = true
    · have hstep : condUpdateStep cond h (g, c) a =
          (Function.update g a (h (g a)), c + 1) := by
        unfold condUpdateStep; simp [ha]
      rw [hstep, ih hntl]
      have hcong : tl.countP (fun q => cond q (Function.update g a (h (g a)) q)) =
          tl.countP (fun q => cond q (g q)) := by
        apply List.countP_congr
        intro q hq
        have hqa : q ≠ a := fun hqe => hna (hqe ▸ hq)
        rw [Function.update_noteq hqa]
      have hc : (a :: tl).countP (fun q => cond q (g q)) =
          tl.countP (fun q => cond q (g q)) + 1 :=
        List.countP_cons_of_pos _ _ (by simpa using ha)
      rw [hcong, hc]
      omega
    · have hstep : condUpdateStep cond h (g, c) a = (g, c) := by
        unfold condUpdateStep; simp [ha]
      have hc : (a :: tl).countP (fun q => cond q (g q)) =
          tl.countP (fun q => cond q (g q)) :=
        List.countP_cons_of_neg _ _ (by simpa using ha)
      rw [hstep, ih hntl, hc]

/-- Removing a nonempty intersection strictly shrinks a candidate set. -/
theorem sdiff_ssubset_of_inter_nonempty {v w : Cell} (h : (v ∩ w).Nonempty) : v \ w ⊂ v := by
  refine HasSubset.Subset.ssubset_of_ne (Finset.sdiff_subset) ?_
  intro he
  rw [Finset.sdiff_eq_self_iff_disjoint, Finset.disjoint_iff_inter_eq_empty] at he
  rw [he] at h
  exact Finset.not_nonempty_empty h

/-- The elimination fold only performs counted, strictly shrinking updates at
duplicate-free positions below 81, so it relates to its input as a run of
counted eliminations. -/
theorem condUpdateFold_good (cond : ℕ → Cell → Bool) (h : Cell → Cell) (l : List ℕ)
    (hnd : l.Nodup) (hb : ∀ q ∈ l, q < 81) (g : Grid) (c : ℕ)
    (hs : ∀ q ∈ l, cond q (g q) = true → h (g q) ⊂ g q) :
    GoodUnit (g, c) (l.foldl (condUpdateStep cond h) (g, c)) := by
  have hfst := condUpdateFold_fst cond h l hnd g c
  have hsnd := condUpdateFold_snd cond h l hnd g c
  refine ⟨?_, ?_, ?_, ?_⟩
  · rw [hsnd]; exact Nat.le_add_right _ _
  · intro p
    rw [hfst p]
    by_cases hp : p ∈ l ∧ cond p (g p) = true
    · rw [if_pos hp]
      exact (hs p hp.1 hp.2).subset
    · rw [if_neg hp]
  · intro hz
    rw [hsnd] at hz
    have hcz : l.countP (fun q => cond q (g q)) = 0 := by omega
    rw [List.countP_eq_zero] at hcz
    funext p
    rw [hfst p, if_neg]
    rintro ⟨hpl, hpc⟩
    exact hcz p hpl hpc
  · rw [hsnd]
    have hkey : ∀ q ∈ Finset.range 81,
        ((l.foldl (condUpdateStep cond h) (g, c)).1 q).card +
          (if q ∈ l ∧ cond q (g q) = true then 1 else 0) ≤ (g q).card := by
      intro q _
      rw [hfst q]
      by_cases hq : q ∈ l ∧ cond q (g q) = true
      · rw [if_pos hq, if_pos hq]
        exact Finset.card_lt_card (hs q hq.1 hq.2)
      · rw [if_neg hq, if_neg hq]
        exact le_refl _
    have hsum : totalLen (l.foldl (condUpdateStep cond h) (g, c)).1 +
        ∑ q ∈ Finset.range 81, (if q ∈ l ∧ cond q (g q) = true then 1 else 0) ≤ totalLen g := by
      unfold totalLen
      rw [← Finset.sum_add_distrib]
      exact Finset.sum_le_sum hkey
    have hcount : ∑ q ∈ Finset.range 81, (if q ∈ l ∧ cond q (g q) = true then 1 else 0) =
        l.countP (fun q => cond q (g q)) := by
      rw [← Finset.card_filter]
      have hset : (Finset.range 81).filter (fun q => q ∈ l ∧ cond q (g q) = true) =
          (l.filter (fun q => cond q (g q))).toFinset := by
        ext q
        rw [Finset.mem_filter, List.mem_toFinset, List.mem_filter, Finset.mem_range]
        constructor
        · rintro ⟨_, hql, hqc⟩; exact ⟨hql, hqc⟩
        · rintro ⟨hql, hqc⟩; exact ⟨hb q hql, hql, hqc⟩
      rw [hset, List.toFinset_card_of_nodup (hnd.filter _), List.countP_eq_length_filter]
    rw [hcount] at hsum
    change _ + _ ≤ totalLen g + c
    omega

/-! Candidate monotonicity of the individual rule bodies: every rule body
relates to its input state as a run of counted, strictly shrinking
eliminations. -/

theorem elimFoundCell_good {nine : List ℕ} (hnine : nine ∈ gameNinesIdx)
    (s : Grid × ℕ) (cp : ℕ) : GoodUnit s (elimFoundCell nine s cp) := by
  obtain ⟨g, c⟩ := s
  obtain ⟨hnd, _, hb⟩ := ninesFacts nine hnine
  simp only [elimFoundCell]
  by_cases hc : (g cp).card = 1
  · rw [if_pos hc]
    apply condUpdateFold_good _ _ _ (hnd.filter _)
      (fun q hq => hb q (List.mem_filter.mp hq).1)
    intro q hq _
    have hcond := of_decide_eq_true (List.mem_filter.mp hq).2
    exact sdiff_ssubset_of_inter_nonempty hcond.2
  · rw [if_neg hc]
    exact goodUnit_refl _

theorem uniqueCellDigit_good {nine : List ℕ} (hnine : nine ∈ gameNinesIdx)
    (s : Grid × ℕ) (i : ℕ) : GoodUnit s (uniqueCellDigit nine s i) := by
  obtain ⟨g, c⟩ := s
  obtain ⟨_, _, hb⟩ := ninesFacts nine hnine
  rcases hML : nine.filter (fun q => decide (i ∈ g q)) with - | ⟨q, rest⟩
  · have : uniqueCellDigit nine (g, c) i = (g, c) := by
      simp only [uniqueCellDigit, hML]
    rw [this]; exact goodUnit_refl _
  rcases rest with - | ⟨r, rest2⟩
  · have hq : q ∈ nine := by
      have hmem : q ∈ nine.filter (fun q => decide (i ∈ g q)) := by
        rw [hML]; exact List.mem_singleton_self q
      exact (List.mem_filter.mp hmem).1
    have hq81 : q < 81 := hb q hq
    by_cases hcard : 1 < (g q).card
    · have hres : uniqueCellDigit nine (g, c) i =
          (Function.update g q (g q ∩ {i}), c + 1) := by
        simp only [uniqueCellDigit, hML]
        rw [if_pos hcard]
      rw [hres]
      refine ⟨Nat.le_succ c, ?_, ?_, ?_⟩
      · intro p
        change Function.update g q (g q ∩ {i}) p ⊆ g p
        by_cases hp : p = q
        · subst hp
          rw [Function.update_same]
          exact Finset.inter_subset_left
        · rw [Function.update_noteq hp]
      · intro hz
        exact absurd hz (Nat.succ_ne_self c)
      · have hup := totalLen_update g q (g q ∩ {i}) hq81
        have hle : (g q ∩ {i}).card ≤ 1 :=
          le_trans (Finset.card_le_card Finset.inter_subset_right) (by simp)
        change totalLen (Function.update g q (g q ∩ {i})) + (c + 1) ≤ totalLen g + c
        omega
    · have hres : uniqueCellDigit nine (g, c) i = (g, c) := by
        simp only [uniqueCellDigit, hML]
        rw [if_neg hcard]
      rw [hres]; exact goodUnit_refl _
  · have : uniqueCellDigit nine (g, c) i = (g, c) := by
      simp only [uniqueCellDigit, hML]
    rw [this]; exact goodUnit_refl _

theorem nakedTupleCell_good {nine : List ℕ} (hnine : nine ∈ gameNinesIdx)
    (s : Grid × ℕ) (cp : ℕ) : GoodUnit s (nakedTupleCell nine s cp) := by
  obtain ⟨g, c⟩ := s
  obtain ⟨hnd, _, hb⟩ := ninesFacts nine hnine
  simp only [nakedTupleCell]
  by_cases hc : 1 < (g cp).card ∧ nine.countP (fun q => decide (g q ⊆ g cp)) = (g cp).card
  · rw [if_pos hc]
    apply condUpdateFold_good _ _ _ (hnd.filter _)
      (fun q hq => hb q (List.mem_filter.mp hq).1)
    intro q hq _
    have hcond := of_decide_eq_true (List.mem_filter.mp hq).2
    exact sdiff_ssubset_of_inter_nonempty hcond.2
  · rw [if_neg hc]
    exact goodUnit_refl _

theorem hiddenTupleCell_good {nine : List ℕ} (hnine : nine ∈ gameNinesIdx)
    (s : Grid × ℕ) (cp : ℕ) : GoodUnit s (hiddenTupleCell nine s cp) := by
  obtain ⟨g, c⟩ := s
  obtain ⟨hnd, _, hb⟩ := ninesFacts nine hnine
  simp only [hiddenTupleCell]
  by_cases hc : 1 < (g cp).card ∧ nine.countP (fun q => decide (g cp ⊆ g q)) = (g cp).card ∧
      nine.countP (fun q => decide (¬ g cp ⊆ g q ∧ (g cp ∩ g q).Nonempty)) = 0
  · rw [if_pos hc]
    apply condUpdateFold_good _ _ _ (hnd.filter _)
      (fun q hq => hb q (List.mem_filter.mp hq).1)
    intro q hq _
    have hcond := of_decide_eq_true (List.mem_filter.mp hq).2
    refine HasSubset.Subset.ssubset_of_ne Finset.inter_subset_left ?_
    intro he
    rw [Finset.inter_eq_right.mpr hcond.1] at he
    have := congrArg Finset.card he
    omega
  · rw [if_neg hc]
    exact goodUnit_refl _

theorem lockedNum_good {lineSis squSis : List ℕ} (hlnd : lineSis.Nodup)
    (hsqd : squSis.Nodup) (hbl : ∀ q ∈ lineSis, q < 81) (hbs : ∀ q ∈ squSis, q < 81)
    (inLine inSquare : Finset ℕ) (s : Grid × ℕ) (num : ℕ) :
    GoodUnit s (lockedNum lineSis squSis inLine inSquare s num) := by
  have hstep : ∀ (l : List ℕ), l.Nodup → (∀ q ∈ l, q < 81) → ∀ (s1 : Grid × ℕ),
      GoodUnit s1 (l.foldl
        (condUpdateStep (fun _ v => decide (num ∈ v)) (fun v => v \ {num})) s1) := by
    intro l hnd hbd s1
    obtain ⟨g, c⟩ := s1
    apply condUpdateFold_good _ _ _ hnd hbd
    intro q hq hcq
    have hnum : num ∈ g q := of_decide_eq_true hcq
    exact sdiff_ssubset_of_inter_nonempty
      ⟨num, Finset.mem_inter.mpr ⟨hnum, Finset.mem_singleton_self num⟩⟩
  simp only [lockedNum]
  have g1 : GoodUnit s (if num ∈ inLine ∧ num ∉ inSquare then
      lineSis.foldl
        (condUpdateStep (fun _ v => decide (num ∈ v)) (fun v => v \ {num})) s
    else s) := by
    by_cases h1 : num ∈ inLine ∧ num ∉ inSquare
    · rw [if_pos h1]; exact hstep lineSis hlnd hbl s
    · rw [if_neg h1]; exact goodUnit_refl s
  by_cases h2 : num ∈ inSquare ∧ num ∉ inLine
  · rw [if_pos h2]
    exact goodUnit_trans g1 (hstep squSis hsqd hbs _)
  · rw [if_neg h2]
    exact g1

theorem lockedTriplet_good {t : TripletIdx} (ht : t ∈ gameTripletsIdx) (s : Grid × ℕ) :
    GoodUnit s (lockedTriplet s t) := by
  obtain ⟨hlnd, hsqd, hbl, hbs, _, _, _⟩ := tripFacts t ht
  simp only [lockedTriplet]
  exact goodUnit_foldl
    (fun s2 num _ => lockedNum_good hlnd hsqd hbl hbs _ _ s2 num) s

theorem xWingStep_good {line1 line2 : List ℕ} (hl1 : line1.length = 9)
    {perps : List (List ℕ)}
    (hperps : ∀ i < 9, ∀ j < 9, i ≠ j →
      ((perps.getD i [] ++ perps.getD j []).Nodup ∧
        ∀ p ∈ perps.getD i [] ++ perps.getD j [], p < 81))
    (a : Grid × ℕ) (n : ℕ) : GoodUnit a (xWingStep line1 line2 perps a n) := by
  obtain ⟨g, c⟩ := a
  simp only [xWingStep]
  by_cases hcond : (idxsWith g line1 n).length = 2 ∧ idxsWith g line1 n = idxsWith g line2 n
  · rw [if_pos hcond]
    obtain ⟨x, y, hxy⟩ := List.length_eq_two.mp hcond.1
    have hnd1 : (idxsWith g line1 n).Nodup := (List.nodup_range _).filter _
    have hxny : x ≠ y := by
      rw [hxy] at hnd1
      exact (List.nodup_cons.mp hnd1).1 ∘ (fun he => he ▸ List.mem_singleton_self y)
    have hmemlt : ∀ z ∈ idxsWith g line1 n, z < 9 := by
      intro z hz
      have := (List.mem_filter.mp hz).1
      rw [List.mem_range, hl1] at this
      exact this
    have hx9 : x < 9 := hmemlt x (hxy ▸ List.mem_cons_self x [y])
    have hy9 : y < 9 := hmemlt y (hxy ▸ List.mem_cons_of_mem x (List.mem_singleton_self y))
    have hg0 : (idxsWith g line1 n).getD 0 0 = x := by rw [hxy]; rfl
    have hg1 : (idxsWith g line1 n).getD 1 0 = y := by rw [hxy]; rfl
    rw [hg0, hg1]
    obtain ⟨hpnd, hpb⟩ := hperps x hx9 y hy9 hxny
    apply condUpdateFold_good _ _ _ hpnd hpb
    intro q hq hcq
    have hn : n ∈ g q := (of_decide_eq_true hcq).1
    exact sdiff_ssubset_of_inter_nonempty
      ⟨n, Finset.mem_inter.mpr ⟨hn, Finset.mem_singleton_self n⟩⟩
  · rw [if_neg hcond]
    exact goodUnit_refl _

theorem swordfishStep_good {line1 line2 line3 : List ℕ} (hl1 : line1.length = 9)
    (hl2 : line2.length = 9) (hl3 : line3.length = 9) {perps : List (List ℕ)}
    (hperps : ∀ i < 9, ∀ j < 9, ∀ k < 9, i ≠ j → i ≠ k → j ≠ k →
      ((perps.getD i [] ++ perps.getD j [] ++ perps.getD k []).Nodup ∧
        ∀ p ∈ perps.getD i [] ++ perps.getD j [] ++ perps.getD k [], p < 81))
    (a : Grid × ℕ) (n : ℕ) : GoodUnit a (swordfishStep line1 line2 line3 perps a n) := by
  obtain ⟨g, c⟩ := a
  simp only [swordfishStep]
  by_cases hcond : 2 ≤ (idxsWithMulti g line1 n).length ∧
      2 ≤ (idxsWithMulti g line2 n).length ∧ 2 ≤ (idxsWithMulti g line3 n).length ∧
      (((idxsWithMulti g line1 n).toFinset ∪ (idxsWithMulti g line2 n).toFinset ∪
        (idxsWithMulti g line3 n).toFinset).sort (· ≤ ·)).length = 3
  · rw [if_pos hcond]
    set U := (idxsWithMulti g line1 n).toFinset ∪ (idxsWithMulti g line2 n).toFinset ∪
        (idxsWithMulti g line3 n).toFinset with hU
    obtain ⟨x, y, z, hxyz⟩ := List.length_eq_three.mp hcond.2.2.2
    have hnd : (U.sort (· ≤ ·)).Nodup := U.sort_nodup (· ≤ ·)
    have hmemlt : ∀ w ∈ U.sort (· ≤ ·), w < 9 := by
      intro w hw
      rw [Finset.mem_sort] at hw
      rw [hU] at hw
      rcases Finset.mem_union.mp hw with hw2 | hw2
      · rcases Finset.mem_union.mp hw2 with hw3 | hw3
        · have := (List.mem_filter.mp (List.mem_toFinset.mp hw3)).1
          rw [List.mem_range, hl1] at this; exact this
        · have := (List.mem_filter.mp (List.mem_toFinset.mp hw3)).1
          rw [List.mem_range, hl2] at this; exact this
      · have := (List.mem_filter.mp (List.mem_toFinset.mp hw2)).1
        rw [List.mem_range, hl3] at this; exact this
    rw [hxyz] at hnd hmemlt
    have hx9 : x < 9 := hmemlt x (List.mem_cons_self x [y, z])
    have hy9 : y < 9 := hmemlt y (List.mem_cons_of_mem x (List.mem_cons_self y [z]))
    have hz9 : z < 9 := hmemlt z (List.mem_cons_of_mem x
      (List.mem_cons_of_mem y (List.mem_singleton_self z)))
    have hxy : x ≠ y := fun he => (List.nodup_cons.mp hnd).1
      (by rw [he]; exact List.mem_cons_self y [z])
    have hxz : x ≠ z := fun he => (List.nodup_cons.mp hnd).1
      (by rw [he]; exact List.mem_cons_of_mem y (List.mem_singleton_self z))
    have hyz : y ≠ z := fun he => (List.nodup_cons.mp (List.nodup_cons.mp hnd).2).1
      (by rw [he]; exact List.mem_singleton_self z)
    have hg0 : (U.sort (· ≤ ·)).getD 0 0 = x := by rw [hxyz]; rfl
    have hg1 : (U.sort (· ≤ ·)).getD 1 0 = y := by rw [hxyz]; rfl
    have hg2 : (U.sort (· ≤ ·)).getD 2 0 = z := by rw [hxyz]; rfl
    rw [hg0, hg1, hg2]
    obtain ⟨hpnd, hpb⟩ := hperps x hx9 y hy9 z hz9 hxy hxz hyz
    apply condUpdateFold_good _ _ _ hpnd hpb
    intro q hq hcq
    have hn : n ∈ g q := (of_decide_eq_true hcq).1
    exact sdiff_ssubset_of_inter_nonempty
      ⟨n, Finset.mem_inter.mpr ⟨hn, Finset.mem_singleton_self n⟩⟩
  · rw [if_neg hcond]
    exact goodUnit_refl _

/-! Candidate monotonicity of the seven rules. -/

theorem eliminateFound_good (g : Grid) : GoodUnit (g, 0) (eliminateFound g) := by
  unfold eliminateFound
  exact goodUnit_foldl
    (fun s nine hnine => goodUnit_foldl (fun s2 cp _ => elimFoundCell_good hnine s2 cp) s) (g, 0)

theorem uniqueCell_good (g : Grid) : GoodUnit (g, 0) (uniqueCell g) := by
  unfold uniqueCell
  exact goodUnit_foldl
    (fun s nine hnine => goodUnit_foldl (fun s2 i _ => uniqueCellDigit_good hnine s2 i) s) (g, 0)

theorem nakedTuple_good (g : Grid) : GoodUnit (g, 0) (nakedTuple g) := by
  unfold nakedTuple
  exact goodUnit_foldl
    (fun s nine hnine => goodUnit_foldl (fun s2 cp _ => nakedTupleCell_good hnine s2 cp) s) (g, 0)

theorem hiddenTuple_good (g : Grid) : GoodUnit (g, 0) (hiddenTuple g) := by
  unfold hiddenTuple
  exact goodUnit_foldl
    (fun s nine hnine => goodUnit_foldl (fun s2 cp _ => hiddenTupleCell_good hnine s2 cp) s) (g, 0)

theorem lockedCandidates_good (g : Grid) : GoodUnit (g, 0) (lockedCandidates g) := by
  unfold lockedCandidates
  exact goodUnit_foldl (fun s t ht => lockedTriplet_good ht s) (g, 0)

theorem xWing1_good {line1 line2 : List ℕ} (hl1 : line1.length = 9)
    {perps : List (List ℕ)}
    (hperps : ∀ i < 9, ∀ j < 9, i ≠ j →
      ((perps.getD i [] ++ perps.getD j []).Nodup ∧
        ∀ p ∈ perps.getD i [] ++ perps.getD j [], p < 81))
    (s : Grid × ℕ) : GoodUnit s (xWing1 s line1 line2 perps) := by
  unfold xWing1
  exact goodUnit_foldl (fun a n _ => xWingStep_good hl1 hperps a n) s

theorem xWing_good (g : Grid) : GoodUnit (g, 0) (xWing g) := by
  have hr8 : ∀ i : ℕ, i ∈ List.range 8 → i < 9 := by
    intro i hi
    have := List.mem_range.mp hi
    omega
  have hstep1 : ∀ (s : Grid × ℕ), ∀ i1 ∈ List.range 8, GoodUnit s
      ((List.range' (i1 + 1) (8 - i1)).foldl
        (fun s2 i2 => xWing1 s2 (gameRowsIdx.getD i1 []) (gameRowsIdx.getD i2 [])
          gameColsIdx) s) := by
    intro s i1 hi1
    exact goodUnit_foldl
      (fun s2 i2 _ => xWing1_good (rowLineFacts i1 (hr8 i1 hi1)).1 colsConcat2 s2) s
  have hstep2 : ∀ (s : Grid × ℕ), ∀ i1 ∈ List.range 8, GoodUnit s
      ((List.range' (i1 + 1) (8 - i1)).foldl
        (fun s2 i2 => xWing1 s2 (gameColsIdx.getD i1 []) (gameColsIdx.getD i2 [])
          gameRowsIdx) s) := by
    intro s i1 hi1
    exact goodUnit_foldl
      (fun s2 i2 _ => xWing1_good (colLineFacts i1 (hr8 i1 hi1)).1 rowsConcat2 s2) s
  simp only [xWing]
  exact goodUnit_trans (goodUnit_foldl hstep1 (g, 0)) (goodUnit_foldl hstep2 _)

theorem swordfish1_good {line1 line2 line3 : List ℕ} (hl1 : line1.length = 9)
    (hl2 : line2.length = 9) (hl3 : line3.length = 9) {perps : List (List ℕ)}
    (hperps : ∀ i < 9, ∀ j < 9, ∀ k < 9, i ≠ j → i ≠ k → j ≠ k →
      ((perps.getD i [] ++ perps.getD j [] ++ perps.getD k []).Nodup ∧
        ∀ p ∈ perps.getD i [] ++ perps.getD j [] ++ perps.getD k [], p < 81))
    (s : Grid × ℕ) : GoodUnit s (swordfish1 s line1 line2 line3 perps) := by
  unfold swordfish1
  exact goodUnit_foldl (fun a n _ => swordfishStep_good hl1 hl2 hl3 hperps a n) s

theorem swordfish_good (g : Grid) : GoodUnit (g, 0) (swordfish g) := by
  have hr : ∀ i : ℕ, i ∈ List.range 7 → i < 9 := by
    intro i hi
    have := List.mem_range.mp hi
    omega
  have hr2 : ∀ i1 i2, i2 ∈ List.range' (i1 + 1) (7 - i1) → i2 < 9 := by
    intro i1 i2 hi2
    have := List.mem_range'_1.mp hi2
    omega
  have hr3 : ∀ i2 i3, i3 ∈ List.range' (i2 + 1) (8 - i2) → i3 < 9 := by
    intro i2 i3 hi3
    have := List.mem_range'_1.mp hi3
    omega
  have hstep1 : ∀ (s : Grid × ℕ), ∀ i1 ∈ List.range 7, GoodUnit s
      ((List.range' (i1 + 1) (7 - i1)).foldl
        (fun s2 i2 => (List.range' (i2 + 1) (8 - i2)).foldl
          (fun s3 i3 => swordfish1 s3 (gameRowsIdx.getD i1 []) (gameRowsIdx.getD i2 [])
            (gameRowsIdx.getD i3 []) gameColsIdx) s2) s) := by
    intro s i1 hi1
    apply goodUnit_foldl
    intro s2 i2 hi2
    exact goodUnit_foldl (fun s3 i3 hi3 =>
      swordfish1_good (rowLineFacts i1 (hr i1 hi1)).1 (rowLineFacts i2 (hr2 i1 i2 hi2)).1
        (rowLineFacts i3 (hr3 i2 i3 hi3)).1 (linesConcat3 colsConcat2) s3) s2
  have hstep2 : ∀ (s : Grid × ℕ), ∀ i1 ∈ List.range 7, GoodUnit s
      ((List.range' (i1 + 1) (7 - i1)).foldl
        (fun s2 i2 => (List.range' (i2 + 1) (8 - i2)).foldl
          (fun s3 i3 => swordfish1 s3 (gameColsIdx.getD i1 []) (gameColsIdx.getD i2 [])
            (gameColsIdx.getD i3 []) gameRowsIdx) s2) s) := by
    intro s i1 hi1
    apply goodUnit_foldl
    intro s2 i2 hi2
    exact goodUnit_foldl (fun s3 i3 hi3 =>
      swordfish1_good (colLineFacts i1 (hr i1 hi1)).1 (colLineFacts i2 (hr2 i1 i2 hi2)).1
        (colLineFacts i3 (hr3 i2 i3 hi3)).1 (linesConcat3 rowsConcat2) s3) s2
  simp only [swordfish]
  exact goodUnit_trans (goodUnit_foldl hstep1 (g, 0)) (goodUnit_foldl hstep2 _)

/-! The rule pass of `applyAndValidate`. -/

theorem chainRule_good {F : Grid → Grid × ℕ} (hF : ∀ g, GoodUnit (g, 0) (F g))
    (s : Grid × ℕ) : GoodUnit s (chainRule F s) := by
  obtain ⟨g, c⟩ := s
  obtain ⟨_, hm, hz, hl⟩ := hF g
  simp only [chainRule]
  refine ⟨?_, ?_, ?_, ?_⟩
  · change c ≤ c + (F g).2
    omega
  · intro p
    exact hm p
  · intro hzz
    change c + (F g).2 = c at hzz
    have h0 : (F g).2 = 0 := by omega
    exact hz h0
  · change totalLen (F g).1 + (c + (F g).2) ≤ totalLen g + c
    change totalLen (F g).1 + (F g).2 ≤ totalLen g + 0 at hl
    omega

theorem gatedRule_good {F : Grid → Grid × ℕ} (hF : ∀ g, GoodUnit (g, 0) (F g))
    (s : Grid × ℕ) : GoodUnit s (gatedRule F s) := by
  unfold gatedRule
  by_cases h : s.2 = 0
  · rw [if_pos h]
    exact chainRule_good hF s
  · rw [if_neg h]
    exact goodUnit_refl s

theorem onePass_good (g : Grid) : GoodUnit (g, 0) (onePass g) := by
  unfold onePass
  refine goodUnit_trans ?_ (gatedRule_good swordfish_good _)
  refine goodUnit_trans ?_ (gatedRule_good xWing_good _)
  refine goodUnit_trans ?_ (gatedRule_good lockedCandidates_good _)
  refine goodUnit_trans ?_ (gatedRule_good hiddenTuple_good _)
  refine goodUnit_trans ?_ (gatedRule_good nakedTuple_good _)
  refine goodUnit_trans ?_ (chainRule_good uniqueCell_good _)
  exact chainRule_good eliminateFound_good (g, 0)

theorem onePass_subset (g : Grid) (p : ℕ) : (onePass g).1 p ⊆ g p :=
  (onePass_good g).2.1 p

theorem onePass_len (g : Grid) : totalLen (onePass g).1 + (onePass g).2 ≤ totalLen g := by
  have h := (onePass_good g).2.2.2
  change totalLen (onePass g).1 + (onePass g).2 ≤ totalLen g + 0 at h
  omega

/-- A pass that does not shrink the total candidate count has made no
eliminations at all, and in particular `eliminateFound` made none. -/
theorem onePass_zero (g : Grid) (hlen : totalLen (onePass g).1 = totalLen g) :
    (onePass g).1 = g ∧ (onePass g).2 = 0 ∧ (eliminateFound g).2 = 0 := by
  have hg := onePass_good g
  have hlen2 := onePass_len g
  have hcz : (onePass g).2 = 0 := by omega
  have hgr : (onePass g).1 = g := hg.2.2.1 hcz
  have hchain : GoodUnit (chainRule eliminateFound (g, 0)) (onePass g) := by
    unfold onePass
    refine goodUnit_trans ?_ (gatedRule_good swordfish_good _)
    refine goodUnit_trans ?_ (gatedRule_good xWing_good _)
    refine goodUnit_trans ?_ (gatedRule_good lockedCandidates_good _)
    refine goodUnit_trans ?_ (gatedRule_good hiddenTuple_good _)
    refine goodUnit_trans ?_ (gatedRule_good nakedTuple_good _)
    exact chainRule_good uniqueCell_good _
  have hle : (chainRule eliminateFound (g, 0)).2 ≤ (onePass g).2 := hchain.1
  have heq : (chainRule eliminateFound (g, 0)).2 = 0 + (eliminateFound g).2 := rfl
  exact ⟨hgr, hcz, by omega⟩

/-! The fixpoint loop `propagate`. -/

theorem propagateAux : ∀ (n : ℕ) (g : Grid), totalLen g = n →
    (∀ p, propagate g p ⊆ g p) ∧ totalLen (propagate g) ≤ totalLen g ∧
      onePass (propagate g) = (propagate g, 0) := by
  intro n
  induction n using Nat.strong_induction_on with
  | _ n ih =>
    intro g hn
    rw [propagate]
    by_cases h : totalLen (onePass g).1 < totalLen g
    · rw [dif_pos h]
      have ih2 := ih (totalLen (onePass g).1) (by omega) (onePass g).1 rfl
      refine ⟨?_, ?_, ih2.2.2⟩
      · intro p
        exact subset_trans (ih2.1 p) (onePass_subset g p)
      · have := ih2.2.1
        omega
    · rw [dif_neg h]
      have hlen : totalLen (onePass g).1 = totalLen g := by
        have := onePass_len g
        omega
      obtain ⟨hgr, hcz, _⟩ := onePass_zero g hlen
      refine ⟨?_, le_of_eq hlen, ?_⟩
      · intro p
        rw [hgr]
      · rw [hgr]
        exact Prod.ext hgr hcz

theorem propagate_subset (g : Grid) (p : ℕ) : propagate g p ⊆ g p :=
  (propagateAux (totalLen g) g rfl).1 p

theorem propagate_le (g : Grid) : totalLen (propagate g) ≤ totalLen g :=
  (propagateAux (totalLen g) g rfl).2.1

/-- The state returned by the rule loop is a fixpoint of the rule pass. -/
theorem propagate_fix (g : Grid) : onePass (propagate g) = (propagate g, 0) :=
  (propagateAux (totalLen g) g rfl).2.2

/-! The search controller of `sudoku_solver`. -/

/-- Facts recovered from the row-major scan for the first unresolved cell. -/
theorem firstUnresolved_some {g : Grid} {p : ℕ} (h : firstUnresolved g = some p) :
    p < 81 ∧ 1 < (g p).card := by
  unfold firstUnresolved at h
  have h1 := List.find?_some h
  have h2 := List.mem_of_find?_eq_some h
  rw [List.mem_range] at h2
  exact ⟨h2, of_decide_eq_true h1⟩

/-- Candidate count of a hypothesis child: one cell restricted to a singleton. -/
theorem totalLen_child (g : Grid) (p n : ℕ) (hp : p < 81) (hn : n ∈ g p) :
    totalLen (Function.update g p (g p ∩ {n})) + (g p).card = totalLen g + 1 := by
  have hint : g p ∩ {n} = {n} := Finset.inter_singleton_of_mem hn
  have h1 := totalLen_update g p (g p ∩ {n}) hp
  have h2 : (g p ∩ {n}).card = 1 := by
    rw [hint]
    exact Finset.card_singleton n
  omega

/-- Weight of a queue of game states, used to measure the search loop. -/
def queueMeasure (q : List Grid) : ℕ := (q.map (fun g => 3 ^ totalLen g)).sum

theorem queueMeasure_cons (g : Grid) (q : List Grid) :
    queueMeasure (g :: q) = 3 ^ totalLen g + queueMeasure q := by
  simp [queueMeasure]

theorem queueMeasure_append (q1 q2 : List Grid) :
    queueMeasure (q1 ++ q2) = queueMeasure q1 + queueMeasure q2 := by
  simp [queueMeasure]

theorem sum_map_const {α : Type} (l : List α) (F : α → ℕ) (c : ℕ)
    (h : ∀ x ∈ l, F x = c) : (l.map F).sum = l.length * c := by
  induction l with
  | nil => simp
  | cons a tl ih =>
    rw [List.map_cons, List.sum_cons, h a (List.mem_cons_self a tl),
      ih (fun x hx => h x (List.mem_cons_of_mem a hx)), List.length_cons]
    ring

theorem queueMeasure_map {α : Type} (l : List α) (child : α → Grid) (c : ℕ)
    (h : ∀ x ∈ l, 3 ^ totalLen (child x) = c) :
    queueMeasure (l.map child) = l.length * c := by
  unfold queueMeasure
  rw [List.map_map]
  apply sum_map_const
  intro x hx
  simp only [Function.comp_apply]
  exact h x hx

theorem lt_three_pow_pred : ∀ k : ℕ, 2 ≤ k → k < 3 ^ (k - 1) := by
  intro k
  induction k with
  | zero => omega
  | succ k ih =>
    intro hk
    by_cases h2 : 2 ≤ k
    · have hlt := ih h2
      have h3 : 3 ^ k = 3 ^ (k - 1) * 3 := by
        rw [← pow_succ]
        congr 1
        omega
      have hpos : 1 ≤ 3 ^ (k - 1) := Nat.one_le_pow _ _ (by norm_num)
      simp only [Nat.succ_sub_one]
      omega
    · have hk1 : k = 1 := by omega
      subst hk1
      norm_num

/-- The children spawned from a state weigh strictly less than the state. -/
theorem spawn_measure (f : Grid) : queueMeasure (spawnChildren f) < 3 ^ totalLen f := by
  unfold spawnChildren
  cases hfu : firstUnresolved f with
  | none =>
    have : queueMeasure [] = 0 := rfl
    rw [this]
    exact pow_pos (by norm_num) _
  | some p =>
    obtain ⟨hp81, hcard⟩ := firstUnresolved_some hfu
    have hm : (f p).card ≤ totalLen f := by
      have hm2 : (f p).card ≤ ∑ q ∈ Finset.range 81, (f q).card :=
        Finset.single_le_sum (fun i _ => Nat.zero_le ((f i).card))
          (Finset.mem_range.mpr hp81)
      unfold totalLen
      exact hm2
    have hchild : ∀ n ∈ (f p).sort (· ≤ ·),
        3 ^ totalLen (Function.update f p (f p ∩ {n})) =
          3 ^ (totalLen f + 1 - (f p).card) := by
      intro n hn
      have hnf : n ∈ f p := (Finset.mem_sort _).mp hn
      have := totalLen_child f p n hp81 hnf
      have heq : totalLen (Function.update f p (f p ∩ {n})) =
          totalLen f + 1 - (f p).card := by omega
      rw [heq]
    have hsum := queueMeasure_map ((f p).sort (· ≤ ·))
      (fun n => Function.update f p (f p ∩ {n})) _ hchild
    rw [hsum, Finset.length_sort]
    have hklt : (f p).card < 3 ^ ((f p).card - 1) := lt_three_pow_pred _ hcard
    have hexp : 3 ^ ((f p).card - 1) * 3 ^ (totalLen f + 1 - (f p).card) =
        3 ^ totalLen f := by
      have harith : (f p).card - 1 + (totalLen f + 1 - (f p).card) = totalLen f := by
        omega
      calc 3 ^ ((f p).card - 1) * 3 ^ (totalLen f + 1 - (f p).card)
          = 3 ^ ((f p).card - 1 + (totalLen f + 1 - (f p).card)) := (pow_add 3 _ _).symm
        _ = 3 ^ totalLen f := by rw [harith]
    calc (f p).card * 3 ^ (totalLen f + 1 - (f p).card)
        < 3 ^ ((f p).card - 1) * 3 ^ (totalLen f + 1 - (f p).card) :=
          Nat.mul_lt_mul_of_pos_right hklt (pow_pos (by norm_num) _)
      _ = 3 ^ totalLen f := hexp

/-- The search loop of `sudoku_solver`: pop the head of the FIFO queue, reduce
and classify it; record it when solved, spawn hypothesis children when still
in progress, drop it when contradictory; return the accumulated solutions
when the queue is exhausted. -/
def solverLoop (queue : List Grid) (sols : List (List (List ℕ))) : List (List (List ℕ)) :=
  match queue with
  | [] => sols
  | g :: rest =>
    let fr := applyAndValidate g
    if fr.2 = 1 then solverLoop rest (sols ++ [extractGrid fr.1])
    else if fr.2 = 0 then solverLoop (rest ++ spawnChildren fr.1) sols
    else solverLoop rest sols
termination_by queueMeasure queue
decreasing_by
  · rw [queueMeasure_cons]
    have := pow_pos (show 0 < 3 by norm_num) (totalLen g)
    omega
  · rw [queueMeasure_append, queueMeasure_cons]
    have h1 := spawn_measure (applyAndValidate g).1
    have h3 : (3:ℕ) ^ totalLen (applyAndValidate g).1 ≤ 3 ^ totalLen g :=
      Nat.pow_le_pow_right (by norm_num) (propagate_le g)
    omega
  · rw [queueMeasure_cons]
    have := pow_pos (show 0 < 3 by norm_num) (totalLen g)
    omega

/-- `sudoku_solver`: validate the input, then run the search from the start
state; the two exceptions and the returned grid become result variants. -/
def sudoku_solver (puzzle : List (List ℕ)) : SolveResult :=
  if ¬ (puzzle.length = 9 ∧ ∀ row ∈ puzzle, row.length = 9) then SolveResult.malformedInput
  else if ∃ row ∈ puzzle, ∃ v ∈ row, ¬ v ≤ 9 then SolveResult.malformedInput
  else
    match solverLoop [startState puzzle] [] with
    | [s] => SolveResult.uniqueSolution s
    | [] => SolveResult.noSolution
    | _ => SolveResult.multipleSolutions

set_option maxHeartbeats 8000000 in
/-- Equation of the search loop on the empty queue. -/
theorem solverLoop_nil (sols : List (List (List ℕ))) : solverLoop [] sols = sols := by
  rw [solverLoop]

/-- Equation of the search loop on a nonempty queue: the head is popped,
reduced and classified. -/
theorem solverLoop_cons (g : Grid) (rest : List Grid) (sols : List (List (List ℕ))) :
    solverLoop (g :: rest) sols =
      (if (applyAndValidate g).2 = 1 then
        solverLoop rest (sols ++ [extractGrid (applyAndValidate g).1])
      else if (applyAndValidate g).2 = 0 then
        solverLoop (rest ++ spawnChildren (applyAndValidate g).1) sols
      else solverLoop rest sols) := by
  rw [solverLoop]

/-! Rule behaviour on the uniform grid (the start state of the all-blank
puzzle): no rule can make a deduction, so one pass is the identity. -/

/-- `uniqueCell`'s digit step does nothing when the digit is not found in
exactly one cell. -/
theorem uniqueCellDigit_eq_of_not_single {nine : List ℕ} {s : Grid × ℕ} {i : ℕ}
    (h : (nine.filter (fun q => decide (i ∈ s.1 q))).length ≠ 1) :
    uniqueCellDigit nine s i = s := by
  rcases hML : nine.filter (fun q => decide (i ∈ s.1 q)) with - | ⟨q, rest⟩
  · simp [uniqueCellDigit, hML]
  · rcases rest with - | ⟨r, rest2⟩
    · rw [hML] at h
      exact absurd rfl h
    · simp [uniqueCellDigit, hML]

theorem uniformGrid_card (p : ℕ) : (uniformGrid p).card = 9 := rfl

theorem sisterDigits_uniform_subset (l : List ℕ) :
    sisterDigits uniformGrid l ⊆ Finset.Icc 1 9 := by
  induction l with
  | nil => exact Finset.empty_subset _
  | cons a tl ih =>
    unfold sisterDigits at ih ⊢
    rw [List.foldr_cons]
    exact Finset.union_subset (Finset.Subset.refl _) ih

theorem sisterDigits_uniform (l : List ℕ) (hl : l ≠ []) :
    sisterDigits uniformGrid l = Finset.Icc 1 9 := by
  cases l with
  | nil => exact absurd rfl hl
  | cons a tl =>
    unfold sisterDigits
    rw [List.foldr_cons]
    exact Finset.union_eq_left.mpr (sisterDigits_uniform_subset tl)

theorem elimFoundCell_uniform (nine : List ℕ) (c : ℕ) (cp : ℕ) :
    elimFoundCell nine (uniformGrid, c) cp = (uniformGrid, c) := by
  unfold elimFoundCell
  rw [if_neg]
  intro h
  have : (9 : ℕ) = 1 := h
  omega

theorem uniqueCellDigit_uniform (nine : List ℕ) (hlen : nine.length = 9) (c : ℕ) (i : ℕ) :
    uniqueCellDigit nine (uniformGrid, c) i = (uniformGrid, c) := by
  apply uniqueCellDigit_eq_of_not_single
  by_cases hi : i ∈ Finset.Icc 1 9
  · have : nine.filter (fun q => decide (i ∈ (uniformGrid, c).1 q)) = nine :=
      List.filter_eq_self.mpr (fun a _ => decide_eq_true hi)
    rw [this, hlen]
    omega
  · have : nine.filter (fun q => decide (i ∈ (uniformGrid, c).1 q)) = [] := by
      rw [List.filter_eq_nil_iff]
      intro a _
      simp only [decide_eq_true_eq]
      exact hi
    rw [this]
    simp

theorem nakedTupleCell_uniform (nine : List ℕ) (hlen : nine.length = 9) (c : ℕ) (cp : ℕ) :
    nakedTupleCell nine (uniformGrid, c) cp = (uniformGrid, c) := by
  simp only [nakedTupleCell]
  have hcard : 1 < (uniformGrid cp).card := by rw [uniformGrid_card]; omega
  have hcount : nine.countP (fun q => decide (uniformGrid q ⊆ uniformGrid cp)) =
      (uniformGrid cp).card := by
    rw [List.countP_eq_length.mpr, hlen, uniformGrid_card]
    intro a _
    exact decide_eq_true (Finset.Subset.refl _)
  have hfil : nine.filter (fun q => decide (¬ uniformGrid q ⊆ uniformGrid cp ∧
      (uniformGrid q ∩ uniformGrid cp).Nonempty)) = [] := by
    rw [List.filter_eq_nil_iff]
    intro a _
    simp only [decide_eq_true_eq]
    rintro ⟨hns, -⟩
    exact hns (Finset.Subset.refl _)
  rw [if_pos ⟨hcard, hcount⟩, hfil, List.foldl_nil]

theorem hiddenTupleCell_uniform (nine : List ℕ) (hlen : nine.length = 9) (c : ℕ) (cp : ℕ) :
    hiddenTupleCell nine (uniformGrid, c) cp = (uniformGrid, c) := by
  simp only [hiddenTupleCell]
  have hcard : 1 < (uniformGrid cp).card := by rw [uniformGrid_card]; omega
  have hsup : nine.countP (fun q => decide (uniformGrid cp ⊆ uniformGrid q)) =
      (uniformGrid cp).card := by
    rw [List.countP_eq_length.mpr, hlen, uniformGrid_card]
    intro a _
    exact decide_eq_true (Finset.Subset.refl _)
  have hpart : nine.countP (fun q => decide (¬ uniformGrid cp ⊆ uniformGrid q ∧
      (uniformGrid cp ∩ uniformGrid q).Nonempty)) = 0 := by
    rw [List.countP_eq_zero]
    intro a _
    simp only [decide_eq_true_eq]
    rintro ⟨hns, -⟩
    exact hns (Finset.Subset.refl _)
  have hfil : nine.filter (fun q => decide (uniformGrid cp ⊆ uniformGrid q ∧
      (uniformGrid cp).card < (uniformGrid q).card)) = [] := by
    rw [List.filter_eq_nil_iff]
    intro a _
    simp only [decide_eq_true_eq]
    rintro ⟨-, hlt⟩
    rw [uniformGrid_card, uniformGrid_card] at hlt
    omega
  rw [if_pos ⟨hcard, hsup, hpart⟩, hfil, List.foldl_nil]

theorem lockedNum_uniform (lineSis squSis : List ℕ) (hl : lineSis ≠ []) (hs : squSis ≠ [])
    (c : ℕ) (num : ℕ) :
    lockedNum lineSis squSis (sisterDigits uniformGrid lineSis)
      (sisterDigits uniformGrid squSis) (uniformGrid, c) num = (uniformGrid, c) := by
  unfold lockedNum
  rw [sisterDigits_uniform _ hl, sisterDigits_uniform _ hs]
  rw [if_neg (by rintro ⟨h1, h2⟩; exact h2 h1), if_neg (by rintro ⟨h1, h2⟩; exact h2 h1)]

theorem lockedTriplet_uniform {t : TripletIdx} (ht : t ∈ gameTripletsIdx) (c : ℕ) :
    lockedTriplet (uniformGrid, c) t = (uniformGrid, c) := by
  have hne : t.2.1 ≠ [] ∧ t.2.2 ≠ [] := by
    revert ht
    revert t
    decide
  simp only [lockedTriplet]
  apply foldl_fixed
  intro num _
  exact lockedNum_uniform t.2.1 t.2.2 hne.1 hne.2 c num

theorem idxsWith_uniform (line : List ℕ) (n : ℕ) :
    idxsWith uniformGrid line n = if n ∈ Finset.Icc 1 9 then List.range line.length else [] := by
  unfold idxsWith
  by_cases hn : n ∈ Finset.Icc 1 9
  · rw [if_pos hn]
    exact List.filter_eq_self.mpr (fun a _ => decide_eq_true hn)
  · rw [if_neg hn]
    rw [List.filter_eq_nil_iff]
    intro a _
    simp only [decide_eq_true_eq]
    exact hn

theorem xWingStep_uniform (line1 line2 : List ℕ) (perps : List (List ℕ))
    (hl1 : line1.length = 9) (c : ℕ) (n : ℕ) :
    xWingStep line1 line2 perps (uniformGrid, c) n = (uniformGrid, c) := by
  simp only [xWingStep]
  rw [if_neg]
  rintro ⟨hlen2, -⟩
  rw [idxsWith_uniform] at hlen2
  by_cases hn : n ∈ Finset.Icc 1 9
  · rw [if_pos hn, List.length_range, hl1] at hlen2
    omega
  · rw [if_neg hn] at hlen2
    simp at hlen2

theorem idxsWithMulti_uniform (line : List ℕ) (n : ℕ) :
    idxsWithMulti uniformGrid line n =
      if n ∈ Finset.Icc 1 9 then List.range line.length else [] := by
  unfold idxsWithMulti
  by_cases hn : n ∈ Finset.Icc 1 9
  · rw [if_pos hn]
    apply List.filter_eq_self.mpr
    intro a _
    apply decide_eq_true
    exact ⟨hn, by rw [uniformGrid_card]; omega⟩
  · rw [if_neg hn]
    rw [List.filter_eq_nil_iff]
    intro a _
    rw [decide_eq_true_iff]
    rintro ⟨hmem, -⟩
    exact hn hmem

theorem swordfishStep_uniform (line1 line2 line3 : List ℕ) (perps : List (List ℕ))
    (hl1 : line1.length = 9) (hl2 : line2.length = 9) (hl3 : line3.length = 9)
    (c : ℕ) (n : ℕ) :
    swordfishStep line1 line2 line3 perps (uniformGrid, c) n = (uniformGrid, c) := by
  simp only [swordfishStep]
  rw [if_neg]
  rw [idxsWithMulti_uniform, idxsWithMulti_uniform, idxsWithMulti_uniform, hl1, hl2, hl3]
  by_cases hn : n ∈ Finset.Icc 1 9
  · rw [if_pos hn]
    rintro ⟨-, -, -, hfip⟩
    rw [Finset.union_self, Finset.union_self] at hfip
    rw [Finset.length_sort, List.toFinset_card_of_nodup (List.nodup_range 9),
      List.length_range] at hfip
    omega
  · rw [if_neg hn]
    rintro ⟨h2, -⟩
    simp at h2

theorem chainRule_id {F : Grid → Grid × ℕ} {g : Grid} {c : ℕ} (h : F g = (g, 0)) :
    chainRule F (g, c) = (g, c) := by
  simp only [chainRule, h]
  rfl

theorem gatedRule_id {F : Grid → Grid × ℕ} {g : Grid} {c : ℕ} (h : F g = (g, 0)) :
    gatedRule F (g, c) = (g, c) := by
  unfold gatedRule
  by_cases hc : (g, c).2 = 0
  · rw [if_pos hc]
    exact chainRule_id h
  · rw [if_neg hc]

theorem eliminateFound_uniform : eliminateFound uniformGrid = (uniformGrid, 0) := by
  unfold eliminateFound
  apply foldl_fixed
  intro nine _
  apply foldl_fixed
  intro cp _
  exact elimFoundCell_uniform nine 0 cp

theorem uniqueCell_uniform : uniqueCell uniformGrid = (uniformGrid, 0) := by
  unfold uniqueCell
  apply foldl_fixed
  intro nine hnine
  apply foldl_fixed
  intro i _
  exact uniqueCellDigit_uniform nine (ninesFacts nine hnine).2.1 0 i

theorem nakedTuple_uniform : nakedTuple uniformGrid = (uniformGrid, 0) := by
  unfold nakedTuple
  apply foldl_fixed
  intro nine hnine
  apply foldl_fixed
  intro cp _
  exact nakedTupleCell_uniform nine (ninesFacts nine hnine).2.1 0 cp

theorem hiddenTuple_uniform : hiddenTuple uniformGrid = (uniformGrid, 0) := by
  unfold hiddenTuple
  apply foldl_fixed
  intro nine hnine
  apply foldl_fixed
  intro cp _
  exact hiddenTupleCell_uniform nine (ninesFacts nine hnine).2.1 0 cp

theorem lockedCandidates_uniform : lockedCandidates uniformGrid = (uniformGrid, 0) := by
  unfold lockedCandidates
  apply foldl_fixed
  intro t ht
  exact lockedTriplet_uniform ht 0

theorem xWing1_uniform (line1 line2 : List ℕ) (perps : List (List ℕ))
    (hl1 : line1.length = 9) (c : ℕ) :
    xWing1 (uniformGrid, c) line1 line2 perps = (uniformGrid, c) := by
  unfold xWing1
  apply foldl_fixed
  intro n _
  exact xWingStep_uniform line1 line2 perps hl1 c n

theorem xWing_uniform : xWing uniformGrid = (uniformGrid, 0) := by
  have hr8 : ∀ i : ℕ, i ∈ List.range 8 → i < 9 := by
    intro i hi
    have := List.mem_range.mp hi
    omega
  simp only [xWing]
  have h1 : (List.range 8).foldl (fun s i1 =>
      (List.range' (i1 + 1) (8 - i1)).foldl
        (fun s2 i2 => xWing1 s2 (gameRowsIdx.getD i1 []) (gameRowsIdx.getD i2 [])
          gameColsIdx) s) (uniformGrid, 0) = (uniformGrid, 0) := by
    apply foldl_fixed
    intro i1 hi1
    apply foldl_fixed
    intro i2 _
    exact xWing1_uniform _ _ _ (rowLineFacts i1 (hr8 i1 hi1)).1 0
  rw [h1]
  apply foldl_fixed
  intro i1 hi1
  apply foldl_fixed
  intro i2 _
  exact xWing1_uniform _ _ _ (colLineFacts i1 (hr8 i1 hi1)).1 0

theorem swordfish1_uniform (line1 line2 line3 : List ℕ) (perps : List (List ℕ))
    (hl1 : line1.length = 9) (hl2 : line2.length = 9) (hl3 : line3.length = 9) (c : ℕ) :
    swordfish1 (uniformGrid, c) line1 line2 line3 perps = (uniformGrid, c) := by
  unfold swordfish1
  apply foldl_fixed
  intro n _
  exact swordfishStep_uniform line1 line2 line3 perps hl1 hl2 hl3 c n

theorem swordfish_uniform : swordfish uniformGrid = (uniformGrid, 0) := by
  have hr : ∀ i : ℕ, i ∈ List.range 7 → i < 9 := by
    intro i hi
    have := List.mem_range.mp hi
    omega
  have hr2 : ∀ i1 i2 : ℕ, i2 ∈ List.range' (i1 + 1) (7 - i1) → i2 < 9 := by
    intro i1 i2 hi2
    have := List.mem_range'_1.mp hi2
    omega
  have hr3 : ∀ i2 i3 : ℕ, i3 ∈ List.range' (i2 + 1) (8 - i2) → i3 < 9 := by
    intro i2 i3 hi3
    have := List.mem_range'_1.mp hi3
    omega
  simp only [swordfish]
  have h1 : (List.range 7).foldl (fun s i1 =>
      (List.range' (i1 + 1) (7 - i1)).foldl
        (fun s2 i2 => (List.range' (i2 + 1) (8 - i2)).foldl
          (fun s3 i3 => swordfish1 s3 (gameRowsIdx.getD i1 []) (gameRowsIdx.getD i2 [])
            (gameRowsIdx.getD i3 []) gameColsIdx) s2) s) (uniformGrid, 0) =
      (uniformGrid, 0) := by
    apply foldl_fixed
    intro i1 hi1
    apply foldl_fixed
    intro i2 hi2
    apply foldl_fixed
    intro i3 hi3
    exact swordfish1_uniform _ _ _ _ (rowLineFacts i1 (hr i1 hi1)).1
      (rowLineFacts i2 (hr2 i1 i2 hi2)).1 (rowLineFacts i3 (hr3 i2 i3 hi3)).1 0
  rw [h1]
  apply foldl_fixed
  intro i1 hi1
  apply foldl_fixed
  intro i2 hi2
  apply foldl_fixed
  intro i3 hi3
  exact swordfish1_uniform _ _ _ _ (colLineFacts i1 (hr i1 hi1)).1
    (colLineFacts i2 (hr2 i1 i2 hi2)).1 (colLineFacts i3 (hr3 i2 i3 hi3)).1 0

/-- One rule pass leaves the uniform grid unchanged. -/
theorem onePass_uniform : onePass uniformGrid = (uniformGrid, 0) := by
  unfold onePass
  rw [chainRule_id eliminateFound_uniform, chainRule_id uniqueCell_uniform,
    gatedRule_id nakedTuple_uniform, gatedRule_id hiddenTuple_uniform,
    gatedRule_id lockedCandidates_uniform, gatedRule_id xWing_uniform,
    gatedRule_id swordfish_uniform]

theorem propagate_uniform : propagate uniformGrid = uniformGrid := by
  rw [propagate]
  simp only [onePass_uniform]
  rw [dif_neg (lt_irrefl _)]

theorem totalLen_uniform : totalLen uniformGrid = 729 := by
  unfold totalLen
  rw [Finset.sum_congr rfl (fun p _ => uniformGrid_card p)]
  simp

theorem classify_uniform : classify uniformGrid = 0 := by
  unfold classify
  rw [if_neg (by decide), if_neg (by rw [totalLen_uniform]; omega)]

/-! Rule behaviour on a state whose 81 cells are all singletons with no
repeated digit inside any nine (for example the start state of an already
complete valid puzzle): one pass is the identity and the state classifies as
solved. -/

/-- Every one of the 81 cells is a singleton. -/
abbrev SingleValued (g : Grid) : Prop := ∀ p < 81, (g p).card = 1

/-- No two distinct cells of any nine share a candidate. -/
abbrev NineDisjoint (g : Grid) : Prop :=
  ∀ nine ∈ gameNinesIdx, ∀ p ∈ nine, ∀ q ∈ nine, p ≠ q → g p ∩ g q = ∅

theorem elimFoundCell_solved {g : Grid} (h2 : NineDisjoint g) {nine : List ℕ}
    (hnine : nine ∈ gameNinesIdx) (c : ℕ) {cp : ℕ} (hcp : cp ∈ nine) :
    elimFoundCell nine (g, c) cp = (g, c) := by
  unfold elimFoundCell
  have hfil : nine.filter (fun q => decide (q ≠ cp ∧ (g q ∩ g cp).Nonempty)) = [] := by
    rw [List.filter_eq_nil_iff]
    intro q hq
    simp only [decide_eq_true_eq]
    rintro ⟨hne, hnonempty⟩
    rw [h2 nine hnine q hq cp hcp hne] at hnonempty
    exact Finset.not_nonempty_empty hnonempty
  by_cases hc : (g cp).card = 1
  · rw [if_pos hc, hfil, List.foldl_nil]
  · rw [if_neg hc]

theorem uniqueCellDigit_solved {g : Grid} (h1 : SingleValued g) {nine : List ℕ}
    (hnine : nine ∈ gameNinesIdx) (c : ℕ) (i : ℕ) :
    uniqueCellDigit nine (g, c) i = (g, c) := by
  rcases hML : nine.filter (fun q => decide (i ∈ g q)) with - | ⟨q, rest⟩
  · simp [uniqueCellDigit, hML]
  · rcases rest with - | ⟨r, rest2⟩
    · have hq : q ∈ nine := by
        have hmem : q ∈ nine.filter (fun q => decide (i ∈ g q)) := by
          rw [hML]; exact List.mem_singleton_self q
        exact (List.mem_filter.mp hmem).1
      have hcard : (g q).card = 1 := h1 q ((ninesFacts nine hnine).2.2 q hq)
      simp only [uniqueCellDigit, hML]
      rw [if_neg (by omega)]
    · simp [uniqueCellDigit, hML]

theorem nakedTupleCell_solved {g : Grid} (h1 : SingleValued g) {nine : List ℕ}
    (hnine : nine ∈ gameNinesIdx) (c : ℕ) {cp : ℕ} (hcp : cp ∈ nine) :
    nakedTupleCell nine (g, c) cp = (g, c) := by
  have hcard : (g cp).card = 1 := h1 cp ((ninesFacts nine hnine).2.2 cp hcp)
  simp only [nakedTupleCell]
  rw [if_neg]
  rintro ⟨hlt, -⟩
  omega

theorem hiddenTupleCell_solved {g : Grid} (h1 : SingleValued g) {nine : List ℕ}
    (hnine : nine ∈ gameNinesIdx) (c : ℕ) {cp : ℕ} (hcp : cp ∈ nine) :
    hiddenTupleCell nine (g, c) cp = (g, c) := by
  have hcard : (g cp).card = 1 := h1 cp ((ninesFacts nine hnine).2.2 cp hcp)
  simp only [hiddenTupleCell]
  rw [if_neg]
  rintro ⟨hlt, -⟩
  omega

theorem lockedTriplet_solved {g : Grid} (h1 : SingleValued g) {t : TripletIdx}
    (ht : t ∈ gameTripletsIdx) (c : ℕ) : lockedTriplet (g, c) t = (g, c) := by
  have hb : ∀ p ∈ t.1, p < 81 := (tripFacts t ht).2.2.2.2.1
  have htrip : tripletDigits g t.1 = ∅ := by
    unfold tripletDigits
    have hfil : t.1.filter (fun p => decide (1 < (g p).card)) = [] := by
      rw [List.filter_eq_nil_iff]
      intro p hp
      simp only [decide_eq_true_eq]
      have := h1 p (hb p hp)
      omega
    rw [hfil, List.foldr_nil]
  simp only [lockedTriplet]
  rw [htrip, Finset.sort_empty, List.foldl_nil]

theorem xWingStep_solved {g : Grid} (h2 : NineDisjoint g) {line1 : List ℕ}
    (hn1 : line1 ∈ gameNinesIdx) (line2 : List ℕ) (perps : List (List ℕ)) (c n : ℕ) :
    xWingStep line1 line2 perps (g, c) n = (g, c) := by
  obtain ⟨hnd1, hlen1, hb1⟩ := ninesFacts line1 hn1
  simp only [xWingStep]
  rw [if_neg]
  rintro ⟨hlen, -⟩
  obtain ⟨x, y, hxy⟩ := List.length_eq_two.mp hlen
  have hx : x ∈ idxsWith g line1 n := by rw [hxy]; exact List.mem_cons_self x [y]
  have hy : y ∈ idxsWith g line1 n := by
    rw [hxy]; exact List.mem_cons_of_mem x (List.mem_singleton_self y)
  have hnd : (idxsWith g line1 n).Nodup := (List.nodup_range _).filter _
  have hxny : x ≠ y := by
    rw [hxy] at hnd
    exact fun he => (List.nodup_cons.mp hnd).1 (by rw [he]; exact List.mem_singleton_self y)
  have hx9 : x < line1.length := by
    have := (List.mem_filter.mp hx).1
    rwa [List.mem_range] at this
  have hy9 : y < line1.length := by
    have := (List.mem_filter.mp hy).1
    rwa [List.mem_range] at this
  have hnx : n ∈ g (line1.getD x 0) := of_decide_eq_true (List.mem_filter.mp hx).2
  have hny : n ∈ g (line1.getD y 0) := of_decide_eq_true (List.mem_filter.mp hy).2
  have hgx : line1.getD x 0 = line1.get ⟨x, hx9⟩ := List.getD_eq_get line1 0 hx9
  have hgy : line1.getD y 0 = line1.get ⟨y, hy9⟩ := List.getD_eq_get line1 0 hy9
  have hmem1 : line1.getD x 0 ∈ line1 := by rw [hgx]; exact List.get_mem line1 x hx9
  have hmem2 : line1.getD y 0 ∈ line1 := by rw [hgy]; exact List.get_mem line1 y hy9
  have hpne : line1.getD x 0 ≠ line1.getD y 0 := by
    rw [hgx, hgy]
    intro he
    have hfin := (List.Nodup.get_inj_iff hnd1).mp he
    exact hxny (congrArg Fin.val hfin)
  have hdis := h2 line1 hn1 _ hmem1 _ hmem2 hpne
  have : n ∈ g (line1.getD x 0) ∩ g (line1.getD y 0) := Finset.mem_inter.mpr ⟨hnx, hny⟩
  rw [hdis] at this
  exact absurd this (Finset.not_mem_empty n)

theorem swordfishStep_solved {g : Grid} (h1 : SingleValued g) {line1 : List ℕ}
    (hn1 : line1 ∈ gameNinesIdx) (line2 line3 : List ℕ) (perps : List (List ℕ)) (c n : ℕ) :
    swordfishStep line1 line2 line3 perps (g, c) n = (g, c) := by
  obtain ⟨_, _, hb1⟩ := ninesFacts line1 hn1
  simp only [swordfishStep]
  rw [if_neg]
  rintro ⟨hl1, -⟩
  have hnil : idxsWithMulti g line1 n = [] := by
    unfold idxsWithMulti
    rw [List.filter_eq_nil_iff]
    intro ix hix
    simp only [decide_eq_true_eq]
    rintro ⟨-, hlt⟩
    rw [List.mem_range] at hix
    have hmem : line1.getD ix 0 ∈ line1 := by
      rw [List.getD_eq_get line1 0 hix]
      exact List.get_mem line1 ix hix
    have := h1 _ (hb1 _ hmem)
    omega
  rw [hnil] at hl1
  simp at hl1

theorem eliminateFound_solved {g : Grid} (h2 : NineDisjoint g) :
    eliminateFound g = (g, 0) := by
  unfold eliminateFound
  apply foldl_fixed
  intro nine hnine
  apply foldl_fixed
  intro cp hcp
  exact elimFoundCell_solved h2 hnine 0 hcp

theorem uniqueCell_solved {g : Grid} (h1 : SingleValued g) : uniqueCell g = (g, 0) := by
  unfold uniqueCell
  apply foldl_fixed
  intro nine hnine
  apply foldl_fixed
  intro i _
  exact uniqueCellDigit_solved h1 hnine 0 i

theorem nakedTuple_solved {g : Grid} (h1 : SingleValued g) : nakedTuple g = (g, 0) := by
  unfold nakedTuple
  apply foldl_fixed
  intro nine hnine
  apply foldl_fixed
  intro cp hcp
  exact nakedTupleCell_solved h1 hnine 0 hcp

theorem hiddenTuple_solved {g : Grid} (h1 : SingleValued g) : hiddenTuple g = (g, 0) := by
  unfold hiddenTuple
  apply foldl_fixed
  intro nine hnine
  apply foldl_fixed
  intro cp hcp
  exact hiddenTupleCell_solved h1 hnine 0 hcp

theorem lockedCandidates_solved {g : Grid} (h1 : SingleValued g) :
    lockedCandidates g = (g, 0) := by
  unfold lockedCandidates
  apply foldl_fixed
  intro t ht
  exact lockedTriplet_solved h1 ht 0

theorem xWing_solved {g : Grid} (h2 : NineDisjoint g) : xWing g = (g, 0) := by
  have hr8 : ∀ i : ℕ, i ∈ List.range 8 → i < 9 := by
    intro i hi
    have := List.mem_range.mp hi
    omega
  simp only [xWing]
  have h1 : (List.range 8).foldl (fun s i1 =>
      (List.range' (i1 + 1) (8 - i1)).foldl
        (fun s2 i2 => xWing1 s2 (gameRowsIdx.getD i1 []) (gameRowsIdx.getD i2 [])
          gameColsIdx) s) (g, 0) = (g, 0) := by
    apply foldl_fixed
    intro i1 hi1
    apply foldl_fixed
    intro i2 _
    unfold xWing1
    apply foldl_fixed
    intro n _
    exact xWingStep_solved h2 (rowLineFacts i1 (hr8 i1 hi1)).2 _ _ 0 n
  rw [h1]
  apply foldl_fixed
  intro i1 hi1
  apply foldl_fixed
  intro i2 _
  unfold xWing1
  apply foldl_fixed
  intro n _
  exact xWingStep_solved h2 (colLineFacts i1 (hr8 i1 hi1)).2 _ _ 0 n

theorem swordfish_solved {g : Grid} (h1 : SingleValued g) : swordfish g = (g, 0) := by
  have hr : ∀ i : ℕ, i ∈ List.range 7 → i < 9 := by
    intro i hi
    have := List.mem_range.mp hi
    omega
  simp only [swordfish]
  have hfold : (List.range 7).foldl (fun s i1 =>
      (List.range' (i1 + 1) (7 - i1)).foldl
        (fun s2 i2 => (List.range' (i2 + 1) (8 - i2)).foldl
          (fun s3 i3 => swordfish1 s3 (gameRowsIdx.getD i1 []) (gameRowsIdx.getD i2 [])
            (gameRowsIdx.getD i3 []) gameColsIdx) s2) s) (g, 0) = (g, 0) := by
    apply foldl_fixed
    intro i1 hi1
    apply foldl_fixed
    intro i2 _
    apply foldl_fixed
    intro i3 _
    unfold swordfish1
    apply foldl_fixed
    intro n _
    exact swordfishStep_solved h1 (rowLineFacts i1 (hr i1 hi1)).2 _ _ _ 0 n
  rw [hfold]
  apply foldl_fixed
  intro i1 hi1
  apply foldl_fixed
  intro i2 _
  apply foldl_fixed
  intro i3 _
  unfold swordfish1
  apply foldl_fixed
  intro n _
  exact swordfishStep_solved h1 (colLineFacts i1 (hr i1 hi1)).2 _ _ _ 0 n

/-- One rule pass leaves an all-singleton, nine-disjoint state unchanged. -/
theorem onePass_solved {g : Grid} (h1 : SingleValued g) (h2 : NineDisjoint g) :
    onePass g = (g, 0) := by
  unfold onePass
  rw [chainRule_id (eliminateFound_solved h2), chainRule_id (uniqueCell_solved h1),
    gatedRule_id (nakedTuple_solved h1), gatedRule_id (hiddenTuple_solved h1),
    gatedRule_id (lockedCandidates_solved h1), gatedRule_id (xWing_solved h2),
    gatedRule_id (swordfish_solved h1)]

theorem propagate_solved {g : Grid} (h1 : SingleValued g) (h2 : NineDisjoint g) :
    propagate g = g := by
  rw [propagate]
  simp only [onePass_solved h1 h2]
  rw [dif_neg (lt_irrefl _)]

theorem totalLen_single {g : Grid} (h1 : SingleValued g) : totalLen g = 81 := by
  unfold totalLen
  rw [Finset.sum_congr rfl (fun p hp => h1 p (Finset.mem_range.mp hp))]
  simp

theorem classify_solved {g : Grid} (h1 : SingleValued g) : classify g = 1 := by
  unfold classify
  rw [if_neg, if_pos (totalLen_single h1)]
  intro hany
  rw [List.any_eq_true] at hany
  obtain ⟨p, hp, hempty⟩ := hany
  rw [decide_eq_true_eq] at hempty
  have hc := h1 p (List.mem_range.mp hp)
  rw [hempty] at hc
  simp at hc

/-- The search loop on an already solved start state returns the extracted
grid at once. -/
theorem solverLoop_solved {g : Grid} (h1 : SingleValued g) (h2 : NineDisjoint g) :
    solverLoop [g] [] = [extractGrid g] := by
  have hav : applyAndValidate g = (g, 1) := by
    unfold applyAndValidate
    rw [propagate_solved h1 h2, classify_solved h1]
  rw [solverLoop_cons, hav]
  norm_num
  rw [solverLoop_nil]

/-- `sudoku_solver` on a structurally valid puzzle whose start state is
already an all-singleton, nine-disjoint grid returns that grid. -/
theorem sudoku_solver_solved {P : List (List ℕ)}
    (hshape : P.length = 9 ∧ ∀ row ∈ P, row.length = 9)
    (hvals : ¬ ∃ row ∈ P, ∃ v ∈ row, ¬ v ≤ 9)
    (h1 : SingleValued (startState P)) (h2 : NineDisjoint (startState P)) :
    sudoku_solver P = SolveResult.uniqueSolution (extractGrid (startState P)) := by
  unfold sudoku_solver
  rw [if_neg (not_not_intro hshape), if_neg hvals, solverLoop_solved h1 h2]

/-! Validity of solved fixpoints. -/

/-- If `eliminateFound` makes no elimination, then inside every nine no other
cell intersects a singleton cell. -/
theorem eliminateFound_zero_disjoint {g : Grid} (hz : (eliminateFound g).2 = 0) :
    ∀ nine ∈ gameNinesIdx, ∀ cp ∈ nine, (g cp).card = 1 →
    ∀ q ∈ nine, q ≠ cp → g q ∩ g cp = ∅ := by
  unfold eliminateFound at hz
  have hsteps : ∀ (s : Grid × ℕ), ∀ nine ∈ gameNinesIdx,
      GoodUnit s ((fun s nine => nine.foldl (elimFoundCell nine) s) s nine) :=
    fun s nine hnine => goodUnit_foldl (fun s2 cp _ => elimFoundCell_good hnine s2 cp) s
  have houter := goodUnit_foldl_eq hsteps (g, 0) hz
  intro nine hnine cp hcp hcard q hq hne
  have hnine_eq : nine.foldl (elimFoundCell nine) (g, 0) = (g, 0) := houter.2 nine hnine
  have hinner := goodUnit_foldl_eq
    (fun s2 cp2 _ => elimFoundCell_good hnine s2 cp2) (g, 0) (by rw [hnine_eq])
  have hcell : elimFoundCell nine (g, 0) cp = (g, 0) := hinner.2 cp hcp
  unfold elimFoundCell at hcell
  rw [if_pos hcard] at hcell
  have hnd : (nine.filter (fun q => decide (q ≠ cp ∧ (g q ∩ g cp).Nonempty))).Nodup :=
    (ninesFacts nine hnine).1.filter _
  have hcnt := congrArg Prod.snd hcell
  rw [condUpdateFold_snd _ _ _ hnd g 0] at hcnt
  simp only [List.countP_true] at hcnt
  have hlen0 : (nine.filter (fun q => decide (q ≠ cp ∧ (g q ∩ g cp).Nonempty))).length = 0 := by
    have : (0 : ℕ) + (nine.filter
        (fun q => decide (q ≠ cp ∧ (g q ∩ g cp).Nonempty))).length = 0 := hcnt
    omega
  have hfil := List.eq_nil_of_length_eq_zero hlen0
  rw [List.filter_eq_nil_iff] at hfil
  have hq2 := hfil q hq
  simp only [decide_eq_true_eq] at hq2
  by_contra hne2
  exact hq2 ⟨hne, Finset.nonempty_iff_ne_empty.mpr hne2⟩

/-- `list(cell)[0]` on a singleton returns the element. -/
theorem extractCell_singleton (v : ℕ) : extractCell {v} = v := by
  unfold extractCell
  rw [Finset.sort_singleton]
  rfl

/-- Entry of a grid by row and column indices. -/
def cellValue (grid : List (List ℕ)) (r c : ℕ) : ℕ := (grid.getD r []).getD c 0

theorem extractGrid_shape (f : Grid) :
    (extractGrid f).length = 9 ∧ ∀ row ∈ extractGrid f, row.length = 9 := by
  constructor
  · unfold extractGrid
    rw [List.length_map, List.length_range]
  · intro row hrow
    unfold extractGrid at hrow
    rw [List.mem_map] at hrow
    obtain ⟨r, -, hr2⟩ := hrow
    rw [← hr2, List.length_map, List.length_range]

theorem cellValue_extractGrid (f : Grid) (r c : ℕ) (hr : r < 9) (hc : c < 9) :
    cellValue (extractGrid f) r c = extractCell (f (9 * r + c)) := by
  unfold cellValue extractGrid
  have h1 : ((List.range 9).map
      (fun r => (List.range 9).map (fun c => extractCell (f (9 * r + c))))).getD r [] =
      (List.range 9).map (fun c => extractCell (f (9 * r + c))) := by
    rw [List.getD_eq_getElem _ _ (by simpa using hr)]
    rw [List.getElem_map, List.getElem_range]
  rw [h1]
  rw [List.getD_eq_getElem _ _ (by simpa using hc)]
  rw [List.getElem_map, List.getElem_range]

theorem countP_eq_one_of_unique : ∀ (l : List ℕ), l.Nodup → ∀ (P : ℕ → Bool) (p0 : ℕ),
    p0 ∈ l → P p0 = true → (∀ q ∈ l, P q = true → q = p0) → l.countP P = 1 := by
  intro l
  induction l with
  | nil =>
    intro _ _ _ h
    cases h
  | cons a tl ih =>
    intro hnd P p0 hp0 hP huniq
    rcases List.mem_cons.mp hp0 with he | htl
    · subst he
      have hz : tl.countP P = 0 := by
        rw [List.countP_eq_zero]
        intro q hq hPq
        have hqp := huniq q (List.mem_cons_of_mem p0 hq) hPq
        subst hqp
        exact absurd hq (List.nodup_cons.mp hnd).1
      rw [List.countP_cons_of_pos _ _ hP, hz]
    · have hPa : ¬ P a = true := by
        intro hPa
        have hap := huniq a (List.mem_cons_self a tl) hPa
        subst hap
        exact (List.nodup_cons.mp hnd).1 htl
      rw [List.countP_cons_of_neg _ _ hPa]
      exact ih (List.nodup_cons.mp hnd).2 P p0 htl hP
        (fun q hq => huniq q (List.mem_cons_of_mem a hq))

/-- In an all-singleton state whose nine has pairwise disjoint cells with
digits in 1..9, every digit of 1..9 is extracted from exactly one cell of
the nine. -/
theorem nine_digit_once {g : Grid} {nine : List ℕ} (hnd : nine.Nodup)
    (hlen : nine.length = 9) (hcard : ∀ p ∈ nine, (g p).card = 1)
    (hsub : ∀ p ∈ nine, g p ⊆ Finset.Icc 1 9)
    (hdisj : ∀ p ∈ nine, ∀ q ∈ nine, p ≠ q → g p ∩ g q = ∅) :
    ∀ d, 1 ≤ d → d ≤ 9 → nine.countP (fun p => decide (extractCell (g p) = d)) = 1 := by
  have hval : ∀ p ∈ nine, g p = {extractCell (g p)} := by
    intro p hp
    obtain ⟨v, hv⟩ := Finset.card_eq_one.mp (hcard p hp)
    rw [hv, extractCell_singleton]
  have hmemv : ∀ p ∈ nine, extractCell (g p) ∈ g p := by
    intro p hp
    obtain ⟨v, hv⟩ := Finset.card_eq_one.mp (hcard p hp)
    rw [hv, extractCell_singleton]
    exact Finset.mem_singleton_self v
  have hinj : ∀ p ∈ nine, ∀ q ∈ nine, extractCell (g p) = extractCell (g q) → p = q := by
    intro p hp q hq he
    by_contra hne
    have hd := hdisj p hp q hq hne
    have : extractCell (g p) ∈ g p ∩ g q :=
      Finset.mem_inter.mpr ⟨hmemv p hp, he ▸ hmemv q hq⟩
    rw [hd] at this
    exact absurd this (Finset.not_mem_empty _)
  have himgnd : (nine.map (fun p => extractCell (g p))).Nodup :=
    List.Nodup.map_on hinj hnd
  have himgsub : (nine.map (fun p => extractCell (g p))).toFinset ⊆ Finset.Icc 1 9 := by
    intro d hd
    rw [List.mem_toFinset, List.mem_map] at hd
    obtain ⟨p, hp, hpd⟩ := hd
    exact hsub p hp (hpd ▸ hmemv p hp)
  have himgcard : (nine.map (fun p => extractCell (g p))).toFinset.card = 9 := by
    rw [List.toFinset_card_of_nodup himgnd, List.length_map, hlen]
  have himg : (nine.map (fun p => extractCell (g p))).toFinset = Finset.Icc 1 9 := by
    apply Finset.eq_of_subset_of_card_le himgsub
    rw [himgcard]
    simp
  intro d h1d h9d
  have hdmem : d ∈ (nine.map (fun p => extractCell (g p))).toFinset := by
    rw [himg]
    exact Finset.mem_Icc.mpr ⟨h1d, h9d⟩
  rw [List.mem_toFinset, List.mem_map] at hdmem
  obtain ⟨p0, hp0, hp0d⟩ := hdmem
  apply countP_eq_one_of_unique nine hnd _ p0 hp0 (decide_eq_true hp0d)
  intro q hq hPq
  exact hinj q hq p0 hp0 (by rw [of_decide_eq_true hPq, hp0d])

theorem classify_eq_one_iff (f : Grid) :
    classify f = 1 ↔
      ¬ (List.range 81).any (fun p => decide (f p = ∅)) = true ∧ totalLen f = 81 := by
  unfold classify
  by_cases h1 : (List.range 81).any (fun p => decide (f p = ∅)) = true
  · rw [if_pos h1]
    constructor
    · intro h
      exact absurd h (by norm_num)
    · rintro ⟨hc, -⟩
      exact absurd h1 hc
  · rw [if_neg h1]
    by_cases h2 : totalLen f = 81
    · rw [if_pos h2]
      exact ⟨fun _ => ⟨h1, h2⟩, fun _ => rfl⟩
    · rw [if_neg h2]
      constructor
      · intro h
        exact absurd h (by norm_num)
      · rintro ⟨-, hc⟩
        exact absurd hc h2

theorem classify_eq_zero_iff (f : Grid) :
    classify f = 0 ↔
      ¬ (List.range 81).any (fun p => decide (f p = ∅)) = true ∧ totalLen f ≠ 81 := by
  unfold classify
  by_cases h1 : (List.range 81).any (fun p => decide (f p = ∅)) = true
  · rw [if_pos h1]
    constructor
    · intro h
      exact absurd h (by norm_num)
    · rintro ⟨hc, -⟩
      exact absurd h1 hc
  · rw [if_neg h1]
    by_cases h2 : totalLen f = 81
    · rw [if_pos h2]
      constructor
      · intro h
        exact absurd h (by norm_num)
      · rintro ⟨-, hc⟩
        exact absurd h2 hc
    · rw [if_neg h2]
      exact ⟨fun _ => ⟨h1, h2⟩, fun _ => rfl⟩

theorem classify_eq_negone_iff (f : Grid) :
    classify f = -1 ↔ (List.range 81).any (fun p => decide (f p = ∅)) = true := by
  unfold classify
  by_cases h1 : (List.range 81).any (fun p => decide (f p = ∅)) = true
  · rw [if_pos h1]
    exact ⟨fun _ => h1, fun _ => rfl⟩
  · rw [if_neg h1]
    by_cases h2 : totalLen f = 81
    · rw [if_pos h2]
      constructor
      · intro h
        exact absurd h (by norm_num)
      · intro h
        exact absurd h h1
    · rw [if_neg h2]
      constructor
      · intro h
        exact absurd h (by norm_num)
      · intro h
        exact absurd h h1

theorem noempty_of_any_false {f : Grid}
    (h : ¬ (List.range 81).any (fun p => decide (f p = ∅)) = true) :
    ∀ p < 81, f p ≠ ∅ := by
  intro p hp hempty
  apply h
  rw [List.any_eq_true]
  exact ⟨p, List.mem_range.mpr hp, decide_eq_true hempty⟩

/-- Each spawned child only restricts cells of its parent. -/
theorem spawnChildren_subset (f : Grid) :
    ∀ c ∈ spawnChildren f, ∀ p, c p ⊆ f p := by
  unfold spawnChildren
  cases hfu : firstUnresolved f with
  | none =>
    intro c hc
    cases hc
  | some p =>
    intro c hc q
    rw [List.mem_map] at hc
    obtain ⟨n, -, hn2⟩ := hc
    rw [← hn2]
    by_cases hq : q = p
    · subst hq
      rw [Function.update_same]
      exact Finset.inter_subset_left
    · rw [Function.update_noteq hq]

/-- A recorded solution: the extraction of a rule-pass fixpoint that only
restricts the start state, has no empty cell and is all singletons. -/
def GoodSolution (s : Grid) (x : List (List ℕ)) : Prop :=
  ∃ f : Grid, (∀ p, f p ⊆ s p) ∧ onePass f = (f, 0) ∧ (∀ p < 81, f p ≠ ∅) ∧
    totalLen f = 81 ∧ x = extractGrid f

/-- Everything returned by the search loop is an accumulated or newly found
good solution, provided the queue only holds restrictions of the start
state. -/
theorem solverLoop_sound (s : Grid) : ∀ (n : ℕ) (queue : List Grid)
    (sols : List (List (List ℕ))), queueMeasure queue = n →
    (∀ g ∈ queue, ∀ p, g p ⊆ s p) → (∀ x ∈ sols, GoodSolution s x) →
    ∀ x ∈ solverLoop queue sols, GoodSolution s x := by
  intro n
  induction n using Nat.strong_induction_on with
  | _ n ih =>
    intro queue sols hn hq hs x hx
    rcases queue with - | ⟨g, rest⟩
    · rw [solverLoop_nil] at hx
      exact hs x hx
    · rw [solverLoop_cons] at hx
      have hfp : (applyAndValidate g).1 = propagate g := rfl
      have hfsub : ∀ p, (applyAndValidate g).1 p ⊆ s p := by
        intro p
        rw [hfp]
        exact subset_trans (propagate_subset g p) (hq g (List.mem_cons_self g rest) p)
      have hrest : ∀ g2 ∈ rest, ∀ p, g2 p ⊆ s p :=
        fun g2 hg2 p => hq g2 (List.mem_cons_of_mem g hg2) p
      have hrestlt : queueMeasure rest < n := by
        rw [← hn, queueMeasure_cons]
        have := pow_pos (show 0 < 3 by norm_num) (totalLen g)
        omega
      by_cases h1 : (applyAndValidate g).2 = 1
      · rw [if_pos h1] at hx
        have hcl : classify (propagate g) = 1 := h1
        rw [classify_eq_one_iff] at hcl
        have hnew : GoodSolution s (extractGrid (applyAndValidate g).1) := by
          refine ⟨propagate g, ?_, propagate_fix g, noempty_of_any_false hcl.1, hcl.2, ?_⟩
          · intro p
            exact subset_trans (propagate_subset g p) (hq g (List.mem_cons_self g rest) p)
          · rw [hfp]
        apply ih (queueMeasure rest) hrestlt rest (sols ++ [extractGrid (applyAndValidate g).1])
          rfl hrest ?_ x hx
        intro y hy
        rcases List.mem_append.mp hy with hy2 | hy2
        · exact hs y hy2
        · rw [List.mem_singleton.mp hy2]
          exact hnew
      · rw [if_neg h1] at hx
        by_cases h0 : (applyAndValidate g).2 = 0
        · rw [if_pos h0] at hx
          have hweight : queueMeasure (rest ++ spawnChildren (applyAndValidate g).1) < n := by
            rw [← hn, queueMeasure_append, queueMeasure_cons]
            have hsm := spawn_measure (applyAndValidate g).1
            have h3 : (3:ℕ) ^ totalLen (applyAndValidate g).1 ≤ 3 ^ totalLen g :=
              Nat.pow_le_pow_right (by norm_num) (propagate_le g)
            omega
          apply ih (queueMeasure (rest ++ spawnChildren (applyAndValidate g).1)) hweight
            _ sols rfl ?_ hs x hx
          intro g2 hg2
          rcases List.mem_append.mp hg2 with hg3 | hg3
          · exact hrest g2 hg3
          · intro p
            exact subset_trans (spawnChildren_subset _ g2 hg3 p) (hfsub p)
        · rw [if_neg h0] at hx
          exact ih (queueMeasure rest) hrestlt rest sols rfl hrest hs x hx

/-- Inversion of `sudoku_solver` on a returned grid: the validation passed
and the search returned exactly that grid. -/
theorem sudoku_solver_unique_inv {P : List (List ℕ)} {sol : List (List ℕ)}
    (h : sudoku_solver P = SolveResult.uniqueSolution sol) :
    (P.length = 9 ∧ ∀ row ∈ P, row.length = 9) ∧ (∀ row ∈ P, ∀ v ∈ row, v ≤ 9) ∧
    solverLoop [startState P] [] = [sol] := by
  unfold sudoku_solver at h
  by_cases h1 : ¬ (P.length = 9 ∧ ∀ row ∈ P, row.length = 9)
  · rw [if_pos h1] at h
    exact absurd h (by simp)
  · rw [if_neg h1] at h
    by_cases h2 : ∃ row ∈ P, ∃ v ∈ row, ¬ v ≤ 9
    · rw [if_pos h2] at h
      exact absurd h (by simp)
    · rw [if_neg h2] at h
      push_neg at h2
      refine ⟨not_not.mp h1, h2, ?_⟩
      rcases hsl : solverLoop [startState P] [] with - | ⟨s0, - | ⟨s1, tl⟩⟩
      · rw [hsl] at h
        exact absurd h (by simp)
      · rw [hsl] at h
        simp only [SolveResult.uniqueSolution.injEq] at h
        rw [h]
      · rw [hsl] at h
        exact absurd h (by simp)

/-- Every cell of the start state of a value-validated puzzle only admits
digits 1..9. -/
theorem startState_subset_Icc {P : List (List ℕ)}
    (hvals : ∀ row ∈ P, ∀ v ∈ row, v ≤ 9) (p : ℕ) :
    startState P p ⊆ Finset.Icc 1 9 := by
  unfold startState startCell
  by_cases h0 : (P.getD (p / 9) []).getD (p % 9) 0 = 0
  · rw [if_pos h0]
  · rw [if_neg h0]
    have hrow : P.getD (p / 9) [] = [] ∨ P.getD (p / 9) [] ∈ P := by
      by_cases hr : p / 9 < P.length
      · right
        rw [List.getD_eq_getElem _ _ hr]
        exact List.getElem_mem _
      · left
        exact List.getD_eq_default _ _ (by omega)
    have hv : (P.getD (p / 9) []).getD (p % 9) 0 ≤ 9 := by
      rcases hrow with hr | hr
      · rw [hr] at h0
        exact absurd rfl h0
      · by_cases hc : p % 9 < (P.getD (p / 9) []).length
        · have hmem : (P.getD (p / 9) []).getD (p % 9) 0 ∈ P.getD (p / 9) [] := by
            rw [List.getD_eq_getElem _ _ hc]
            exact List.getElem_mem _
          exact hvals _ hr _ hmem
        · rw [List.getD_eq_default _ _ (by omega)] at h0
          exact absurd rfl h0
    rw [Finset.singleton_subset_iff, Finset.mem_Icc]
    exact ⟨by omega, hv⟩

/-- The start state of a given (nonzero) puzzle cell is its singleton. -/
theorem startState_given {P : List (List ℕ)} {r c : ℕ} (hr : r < 9) (hc : c < 9)
    (hval : cellValue P r c ≠ 0) : startState P (9 * r + c) = {cellValue P r c} := by
  unfold startState startCell cellValue
  unfold cellValue at hval
  have hdiv : (9 * r + c) / 9 = r := by omega
  have hmod : (9 * r + c) % 9 = c := by omega
  rw [hdiv, hmod, if_neg hval]

/-- C1: for every puzzle on which `sudoku_solver` returns a grid (the
`UniqueSolution` outcome), the returned 9x9 grid is a valid complete Sudoku —
every row, every column and every 3x3 box (the 27 nines) contains each digit
1..9 exactly once — and every nonzero (given) cell of the input holds the
same digit in the returned grid. -/
theorem c1_solution_valid (P sol : List (List ℕ))
    (h : sudoku_solver P = SolveResult.uniqueSolution sol) :
    (sol.length = 9 ∧ ∀ row ∈ sol, row.length = 9) ∧
    (∀ nine ∈ gameNinesIdx, ∀ d, 1 ≤ d → d ≤ 9 →
      nine.countP (fun p => decide (cellValue sol (p / 9) (p % 9) = d)) = 1) ∧
    (∀ r < 9, ∀ c < 9, cellValue P r c ≠ 0 → cellValue sol r c = cellValue P r c) := by
  obtain ⟨hshape, hvals, hloop⟩ := sudoku_solver_unique_inv h
  have hsol : sol ∈ solverLoop [startState P] [] := by
    rw [hloop]
    exact List.mem_singleton_self sol
  have hgood := solverLoop_sound (startState P) (queueMeasure [startState P])
    [startState P] [] rfl
    (fun g hg p => by rw [List.mem_singleton.mp hg])
    (fun x hx => absurd hx (List.not_mem_nil x)) sol hsol
  obtain ⟨f, hfsub, hfix, hfne, hftot, hfsol⟩ := hgood
  have hcards : ∀ p < 81, (f p).card = 1 := by
    intro p hp
    by_contra hnec
    have hge : ∀ q ∈ Finset.range 81, 1 ≤ (f q).card := fun q hq =>
      Finset.card_pos.mpr (Finset.nonempty_iff_ne_empty.mpr
        (hfne q (Finset.mem_range.mp hq)))
    have hp2 : 2 ≤ (f p).card := by
      have := hge p (Finset.mem_range.mpr hp)
      omega
    have hsplit : totalLen f = (f p).card + ∑ q ∈ (Finset.range 81).erase p, (f q).card := by
      unfold totalLen
      exact (Finset.add_sum_erase _ _ (Finset.mem_range.mpr hp)).symm
    have hrest : ((Finset.range 81).erase p).card • 1 ≤
        ∑ q ∈ (Finset.range 81).erase p, (f q).card :=
      Finset.card_nsmul_le_sum _ _ _ (fun q hq => hge q (Finset.mem_of_mem_erase hq))
    have hcard_erase : ((Finset.range 81).erase p).card = 80 := by
      rw [Finset.card_erase_of_mem (Finset.mem_range.mpr hp), Finset.card_range]
    rw [hcard_erase] at hrest
    simp only [smul_eq_mul, mul_one] at hrest
    omega
  have hefz : (eliminateFound f).2 = 0 := by
    have hlen : totalLen (onePass f).1 = totalLen f := by rw [hfix]
    exact (onePass_zero f hlen).2.2
  have hdisj := eliminateFound_zero_disjoint hefz
  refine ⟨?_, ?_, ?_⟩
  · rw [hfsol]
    exact extractGrid_shape f
  · intro nine hnine d h1d h9d
    obtain ⟨hnd, hlen9, hb⟩ := ninesFacts nine hnine
    have hcount := nine_digit_once hnd hlen9 (fun p hp => hcards p (hb p hp))
      (fun p hp => subset_trans (hfsub p) (startState_subset_Icc hvals p))
      (fun p hp q hq hne =>
        hdisj nine hnine q hq (hcards q (hb q hq)) p hp hne) d h1d h9d
    rw [hfsol, ← hcount]
    apply List.countP_congr
    intro p hp
    have hp81 : p < 81 := hb p hp
    have hr : p / 9 < 9 := by omega
    have hc : p % 9 < 9 := by omega
    have hpe : 9 * (p / 9) + p % 9 = p := by omega
    have hcv := cellValue_extractGrid f (p / 9) (p % 9) hr hc
    rw [hpe] at hcv
    rw [hcv]
  · intro r hr c hc hval
    have hp81 : 9 * r + c < 81 := by omega
    have hstart := startState_given hr hc hval
    have hsub2 : f (9 * r + c) ⊆ {cellValue P r c} := by
      rw [← hstart]
      exact hfsub (9 * r + c)
    have hne2 : f (9 * r + c) ≠ ∅ := hfne _ hp81
    have hfeq : f (9 * r + c) = {cellValue P r c} := by
      rcases Finset.subset_singleton_iff.mp hsub2 with he | he
      · exact absurd he hne2
      · exact he
    rw [hfsol, cellValue_extractGrid f r c hr hc, hfeq, extractCell_singleton]

/-- Extracting the start state of a fully given puzzle returns the puzzle. -/
theorem extractGrid_startState (P : List (List ℕ))
    (hP : P.length = 9 ∧ ∀ row ∈ P, row.length = 9)
    (hnz : ∀ r < 9, ∀ c < 9, cellValue P r c ≠ 0) :
    extractGrid (startState P) = P := by
  have hsh := extractGrid_shape (startState P)
  apply List.ext_getElem
  · rw [hsh.1, hP.1]
  · intro r hr1 hr2
    have hr9 : r < 9 := by rw [hsh.1] at hr1; exact hr1
    have hrowlen : ((extractGrid (startState P))[r]).length = 9 :=
      hsh.2 _ (List.getElem_mem hr1)
    have hrowlen2 : (P[r]).length = 9 := hP.2 _ (List.getElem_mem hr2)
    apply List.ext_getElem
    · rw [hrowlen, hrowlen2]
    · intro c hc1 hc2
      have hc9 : c < 9 := by rw [hrowlen] at hc1; exact hc1
      have hcv := cellValue_extractGrid (startState P) r c hr9 hc9
      have hgetD1 : cellValue (extractGrid (startState P)) r c =
          (extractGrid (startState P))[r][c] := by
        unfold cellValue
        rw [List.getD_eq_getElem _ _ hr1, List.getD_eq_getElem _ _ hc1]
      have hgetD2 : cellValue P r c = P[r][c] := by
        unfold cellValue
        rw [List.getD_eq_getElem _ _ hr2, List.getD_eq_getElem _ _ hc2]
      rw [← hgetD1, ← hgetD2, hcv, startState_given hr9 hc9 (hnz r hr9 c hc9),
        extractCell_singleton]

/-- Witness for C1: solving an already complete valid grid returns a grid,
and the theorem applies to it. -/
theorem c1_solution_valid_witness :
    sudoku_solver completeGrid = SolveResult.uniqueSolution completeGrid ∧
    ((completeGrid.length = 9 ∧ ∀ row ∈ completeGrid, row.length = 9) ∧
     (∀ nine ∈ gameNinesIdx, ∀ d, 1 ≤ d → d ≤ 9 →
       nine.countP (fun p => decide (cellValue completeGrid (p / 9) (p % 9) = d)) = 1) ∧
     (∀ r < 9, ∀ c < 9, cellValue completeGrid r c ≠ 0 →
       cellValue completeGrid r c = cellValue completeGrid r c)) := by
  have hrun : sudoku_solver completeGrid = SolveResult.uniqueSolution completeGrid := by
    have h := @sudoku_solver_solved completeGrid (by decide) (by decide) (by decide)
      (by decide)
    rw [h]
    rw [extractGrid_startState completeGrid (by decide) (by decide)]
  exact ⟨hrun, c1_solution_valid completeGrid completeGrid hrun⟩

/-- C2: with structural validation passed, the final dispatch on the list of
solutions found by the exhausted search queue: exactly one found returns it,
zero found reports no solution, two or more report multiple solutions — all
as result variants of `sudoku_solver`. -/
theorem c2_final_dispatch (P : List (List ℕ))
    (hlen : P.length = 9) (hrows : ∀ row ∈ P, row.length = 9)
    (hvals : ∀ row ∈ P, ∀ v ∈ row, v ≤ 9) :
    (∀ s, solverLoop [startState P] [] = [s] →
        sudoku_solver P = SolveResult.uniqueSolution s) ∧
    (solverLoop [startState P] [] = [] →
        sudoku_solver P = SolveResult.noSolution) ∧
    (2 ≤ (solverLoop [startState P] []).length →
        sudoku_solver P = SolveResult.multipleSolutions) := by
  have h1 : ¬ ¬ (P.length = 9 ∧ ∀ row ∈ P, row.length = 9) := not_not.mpr ⟨hlen, hrows⟩
  have h2 : ¬ ∃ row ∈ P, ∃ v ∈ row, ¬ v ≤ 9 := by
    push_neg
    exact fun row hr v hv => hvals row hr v hv
  refine ⟨?_, ?_, ?_⟩
  · intro s hs
    unfold sudoku_solver
    rw [if_neg h1, if_neg h2, hs]
  · intro hs
    unfold sudoku_solver
    rw [if_neg h1, if_neg h2, hs]
  · intro hs
    unfold sudoku_solver
    rw [if_neg h1, if_neg h2]
    rcases hsl : solverLoop [startState P] [] with - | ⟨s0, - | ⟨s1, tl⟩⟩
    · rw [hsl] at hs
      simp at hs
    · rw [hsl] at hs
      simp at hs
    · rfl

/-- Witness for C2: the dispatch theorem applies to the complete concrete
puzzle, whose structural validation passes. -/
theorem c2_final_dispatch_witness :
    (∀ s, solverLoop [startState completeGrid] [] = [s] →
        sudoku_solver completeGrid = SolveResult.uniqueSolution s) ∧
    (solverLoop [startState completeGrid] [] = [] →
        sudoku_solver completeGrid = SolveResult.noSolution) ∧
    (2 ≤ (solverLoop [startState completeGrid] []).length →
        sudoku_solver completeGrid = SolveResult.multipleSolutions) :=
  c2_final_dispatch completeGrid (by decide) (by decide) (by decide)

/-- A grid with a single given cell, used to instantiate theorems about a
propagation pass that makes progress. -/
def pointGrid : Grid := fun p => if p = 0 then {5} else Finset.Icc 1 9

/-- C3: the termination measures of the two loops.  A propagation pass
consumes one unit of candidate count per elimination, so a pass that reports
progress strictly decreases the count; every spawned child strictly
decreases it as well (one cell is restricted to a singleton); the count is
bounded below by 81 while no cell is empty; and the weight of the children
of a state is strictly below the weight of the state, so the search queue
measure decreases at every step. -/
theorem c3_termination :
    (∀ g : Grid, totalLen (onePass g).1 + (onePass g).2 ≤ totalLen g) ∧
    (∀ g : Grid, (onePass g).2 ≠ 0 → totalLen (onePass g).1 < totalLen g) ∧
    (∀ (f c : Grid), c ∈ spawnChildren f → totalLen c < totalLen f) ∧
    (∀ f : Grid, (∀ p < 81, (f p).Nonempty) → 81 ≤ totalLen f) ∧
    (∀ f : Grid, queueMeasure (spawnChildren f) < 3 ^ totalLen f) := by
  refine ⟨onePass_len, ?_, ?_, ?_, spawn_measure⟩
  · intro g h
    have := onePass_len g
    omega
  · intro f c
    unfold spawnChildren
    cases hfu : firstUnresolved f with
    | none =>
      intro hc
      cases hc
    | some p =>
      intro hc
      rw [List.mem_map] at hc
      obtain ⟨n, hn1, hn2⟩ := hc
      obtain ⟨hp81, hcard⟩ := firstUnresolved_some hfu
      have hnf : n ∈ f p := by simpa using hn1
      have ht := totalLen_child f p n hp81 hnf
      rw [hn2] at ht
      omega
  · intro f hne
    have h1 : ∑ p ∈ Finset.range 81, 1 ≤ ∑ p ∈ Finset.range 81, (f p).card :=
      Finset.sum_le_sum (fun i hi => Finset.card_pos.mpr (hne i (Finset.mem_range.mp hi)))
    have h2 : ∑ p ∈ Finset.range 81, 1 = 81 := by simp
    unfold totalLen
    omega

/-- The pass count includes everything `eliminateFound` eliminated: the
later stages only add to the running count. -/
theorem onePass_count_ge (g : Grid) : (eliminateFound g).2 ≤ (onePass g).2 := by
  have h1 : GoodUnit (chainRule eliminateFound (g, 0)) (onePass g) := by
    unfold onePass
    refine goodUnit_trans ?_ (gatedRule_good swordfish_good _)
    refine goodUnit_trans ?_ (gatedRule_good xWing_good _)
    refine goodUnit_trans ?_ (gatedRule_good lockedCandidates_good _)
    refine goodUnit_trans ?_ (gatedRule_good hiddenTuple_good _)
    refine goodUnit_trans ?_ (gatedRule_good nakedTuple_good _)
    exact chainRule_good uniqueCell_good _
  have h2 := h1.1
  change 0 + (eliminateFound g).2 ≤ (onePass g).2 at h2
  omega

set_option maxRecDepth 1000000 in
/-- Witness for C3: a pass on the one-given grid makes progress and strictly
decreases the count; a concrete child of the uniform grid decreases it; the
uniform grid meets the lower bound; and its spawn weight is below its own. -/
theorem c3_termination_witness :
    totalLen (onePass pointGrid).1 < totalLen pointGrid ∧
    totalLen (Function.update uniformGrid 0 (uniformGrid 0 ∩ {1})) < totalLen uniformGrid ∧
    81 ≤ totalLen uniformGrid ∧
    queueMeasure (spawnChildren uniformGrid) < 3 ^ totalLen uniformGrid := by
  have hmem : Function.update uniformGrid 0 (uniformGrid 0 ∩ {1}) ∈
      spawnChildren uniformGrid := by
    have hfu : firstUnresolved uniformGrid = some 0 := by decide
    unfold spawnChildren
    rw [hfu]
    exact List.mem_map.mpr ⟨1, by simp only [Finset.mem_sort]; decide, rfl⟩
  have hef : (eliminateFound pointGrid).2 = 20 := by decide
  have hge := onePass_count_ge pointGrid
  exact ⟨c3_termination.2.1 pointGrid (by omega),
    c3_termination.2.2.1 uniformGrid _ hmem,
    c3_termination.2.2.2.1 uniformGrid (by decide),
    c3_termination.2.2.2.2 uniformGrid⟩

/-- C4: `applyAndValidate` reduces to the propagation fixpoint and classifies
it with the precedence: some empty cell gives `-1`; otherwise candidate count
81 (every cell a singleton) gives `1`; otherwise `0`. -/
theorem c4_classification (g : Grid) :
    applyAndValidate g = (propagate g, classify (propagate g)) ∧
    onePass (propagate g) = (propagate g, 0) ∧
    ((applyAndValidate g).2 = -1 ↔ ∃ p < 81, propagate g p = ∅) ∧
    ((applyAndValidate g).2 = 1 ↔
      (∀ p < 81, propagate g p ≠ ∅) ∧ totalLen (propagate g) = 81) ∧
    ((applyAndValidate g).2 = 0 ↔
      (∀ p < 81, propagate g p ≠ ∅) ∧ totalLen (propagate g) ≠ 81) := by
  have hany : ∀ f : Grid,
      ((List.range 81).any (fun p => decide (f p = ∅)) = true ↔ ∃ p < 81, f p = ∅) := by
    intro f
    rw [List.any_eq_true]
    constructor
    · rintro ⟨p, hp, hdec⟩
      exact ⟨p, List.mem_range.mp hp, of_decide_eq_true hdec⟩
    · rintro ⟨p, hp, he⟩
      exact ⟨p, List.mem_range.mpr hp, decide_eq_true he⟩
  have hnone : ∀ f : Grid,
      (¬ (List.range 81).any (fun p => decide (f p = ∅)) = true ↔ ∀ p < 81, f p ≠ ∅) := by
    intro f
    rw [hany f]
    constructor
    · intro h p hp he
      exact h ⟨p, hp, he⟩
    · rintro h ⟨p, hp, he⟩
      exact h p hp he
  refine ⟨rfl, propagate_fix g, ?_, ?_, ?_⟩
  · show classify (propagate g) = -1 ↔ _
    rw [classify_eq_negone_iff, hany]
  · show classify (propagate g) = 1 ↔ _
    rw [classify_eq_one_iff, hnone]
  · show classify (propagate g) = 0 ↔ _
    rw [classify_eq_zero_iff, hnone]

/-- C5: candidate monotonicity of all seven deduction rules: on any state,
every cell of the state after the rule is a subset of that cell before it —
no rule ever adds a candidate anywhere. -/
theorem c5_rule_monotonic (g : Grid) (p : ℕ) :
    (eliminateFound g).1 p ⊆ g p ∧ (uniqueCell g).1 p ⊆ g p ∧
    (nakedTuple g).1 p ⊆ g p ∧ (hiddenTuple g).1 p ⊆ g p ∧
    (lockedCandidates g).1 p ⊆ g p ∧ (xWing g).1 p ⊆ g p ∧
    (swordfish g).1 p ⊆ g p :=
  ⟨(eliminateFound_good g).2.1 p, (uniqueCell_good g).2.1 p,
   (nakedTuple_good g).2.1 p, (hiddenTuple_good g).2.1 p,
   (lockedCandidates_good g).2.1 p, (xWing_good g).2.1 p,
   (swordfish_good g).2.1 p⟩

/-- Characterization of `find?` over an initial segment of the naturals: it
returns exactly the least satisfying position. -/
theorem find_range_some {n x : ℕ} {p : ℕ → Bool} :
    (List.range n).find? p = some x ↔ x < n ∧ p x = true ∧ ∀ y < x, p y = false := by
  induction n generalizing x with
  | zero => simp
  | succ m ih =>
    rw [List.range_succ, List.find?_append]
    cases hm : (List.range m).find? p with
    | none =>
      have hall : ∀ y, y < m → p y = false := by
        intro y hy
        have := List.find?_eq_none.mp hm y (List.mem_range.mpr hy)
        simpa using this
      rw [Option.none_or]
      by_cases hpm : p m = true
      · rw [List.find?_cons_of_pos _ hpm]
        constructor
        · intro h
          have hxm : m = x := by
            injection h
          subst hxm
          exact ⟨by omega, hpm, hall⟩
        · rintro ⟨hx, hpx, hmin⟩
          have hxm : x = m := by
            by_contra hne
            have : x < m := by omega
            rw [hall x this] at hpx
            cases hpx
          subst hxm
          rfl
      · rw [List.find?_cons_of_neg _ (by simpa using hpm), List.find?_nil]
        constructor
        · intro h
          cases h
        · rintro ⟨hx, hpx, hmin⟩
          rcases (by omega : x < m ∨ x = m) with h | h
          · rw [hall x h] at hpx
            cases hpx
          · subst h
            exact absurd hpx hpm
    | some z =>
      rw [Option.or_some]
      have hz := ih.mp hm
      constructor
      · intro h
        have hzx : z = x := by
          injection h
        subst hzx
        exact ⟨by omega, hz.2.1, hz.2.2⟩
      · rintro ⟨hx, hpx, hmin⟩
        have hxz : x = z := by
          rcases lt_trichotomy x z with h | h | h
          · rw [hz.2.2 x h] at hpx
            cases hpx
          · exact h
          · rw [hmin z h] at hz
            rcases hz with ⟨-, hfalse, -⟩
            cases hfalse
        subst hxz
        rfl

/-- CPython model of the candidate-set object a child state iterates.  A
deep copy rebuilds every set by inserting its elements into a fresh table
(`set.__reduce__` feeds `list(s)` back to `set`); a set of at most four
digits keeps the initial 8-slot table.  A digit `k` hashes to itself, probes
slot `k % 8` first and then `(5*i + 1) % 8` repeatedly (the shifted perturb
is zero for keys below 32, and the linear-probe window does not fit an
8-slot table), and iteration walks the slots in table order. -/
def findSlot (t : List (Option ℕ)) : ℕ → ℕ → ℕ
  | 0, i => i
  | fuel + 1, i => if t.getD i none = none then i else findSlot t fuel ((5 * i + 1) % 8)

/-- Insert one digit into an 8-slot table at its first free probed slot. -/
def insertPySet (t : List (Option ℕ)) (k : ℕ) : List (Option ℕ) :=
  t.set (findSlot t 8 (k % 8)) (some k)

/-- Rebuild a small set from its elements, as a deep copy does. -/
def rebuildSet (l : List ℕ) : List (Option ℕ) :=
  l.foldl insertPySet (List.replicate 8 none)

/-- The iteration order of a small-set table: slots in table order. -/
def pyIter (t : List (Option ℕ)) : List ℕ := t.filterMap id

/-- A state whose branch cell holds the four candidates 6, 7, 8, 9. -/
def hypoGrid : Grid := fun p => if p = 0 then {6, 7, 8, 9} else {5}

/-- Counterexample to C6 as stated: on a state whose first unresolved cell
holds `{6, 7, 8, 9}`, the deep-copied candidate set iterates as
`[8, 9, 6, 7]` (digits 8 and 9 land in slots 0 and 1) — each candidate
exactly once, but not in increasing numeric order, while the embedding's
canonical enumeration of that cell is increasing.  The program therefore
does not enqueue the children of such a state in increasing digit order. -/
theorem c6_branching_cex :
    pyIter (rebuildSet [6, 7, 8, 9]) = [8, 9, 6, 7] ∧
    (pyIter (rebuildSet [6, 7, 8, 9])).Perm [6, 7, 8, 9] ∧
    ¬ List.Sorted (· < ·) (pyIter (rebuildSet [6, 7, 8, 9])) ∧
    firstUnresolved hypoGrid = some 0 ∧ hypoGrid 0 = {6, 7, 8, 9} ∧
    List.Sorted (· < ·) ((hypoGrid 0).sort (· ≤ ·)) :=
  ⟨by decide, by decide, by decide, by decide, by decide, Finset.sort_sorted_lt _⟩

/-- C6 (amended): branching on an in-progress state.  The loop pops the head
of the FIFO queue and appends the children at the tail; the branch cell is
the first position in row-major scan order (increasing flat position
`9*row+col`) still admitting more than one candidate; the children are
exactly one clone per candidate of that cell — as many children as
candidates — each clone restricting exactly that cell to the singleton of
its candidate.  The enumeration order of the candidates is the set object's
iteration order, which is not in general increasing, so no order of the
children is asserted. -/
theorem c6_branching_amended (g : Grid) (rest : List Grid) (sols : List (List (List ℕ)))
    (h0 : (applyAndValidate g).2 = 0) :
    solverLoop (g :: rest) sols =
      solverLoop (rest ++ spawnChildren (applyAndValidate g).1) sols ∧
    (∀ p : ℕ, firstUnresolved (applyAndValidate g).1 = some p ↔
      p < 81 ∧ 1 < ((applyAndValidate g).1 p).card ∧
        ∀ q < p, ¬ 1 < ((applyAndValidate g).1 q).card) ∧
    ∀ p : ℕ, firstUnresolved (applyAndValidate g).1 = some p →
      (∀ c : Grid, c ∈ spawnChildren (applyAndValidate g).1 ↔
        ∃ n ∈ (applyAndValidate g).1 p,
          c = Function.update (applyAndValidate g).1 p
            ((applyAndValidate g).1 p ∩ {n})) ∧
      (spawnChildren (applyAndValidate g).1).length = ((applyAndValidate g).1 p).card ∧
      ∀ n ∈ (applyAndValidate g).1 p, (applyAndValidate g).1 p ∩ {n} = {n} := by
  refine ⟨?_, ?_, ?_⟩
  · rw [solverLoop_cons]
    rw [if_neg (by rw [h0]; norm_num), if_pos h0]
  · intro p
    unfold firstUnresolved
    rw [find_range_some]
    constructor
    · rintro ⟨h1, h2, h3⟩
      refine ⟨h1, by simpa using h2, ?_⟩
      intro q hq
      have := h3 q hq
      simpa using this
    · rintro ⟨h1, h2, h3⟩
      refine ⟨h1, by simpa using h2, ?_⟩
      intro q hq
      simpa using h3 q hq
  · intro p hfu
    refine ⟨?_, ?_, ?_⟩
    · intro c
      unfold spawnChildren
      rw [hfu]
      rw [List.mem_map]
      constructor
      · rintro ⟨n, hn1, hn2⟩
        exact ⟨n, by simpa using hn1, hn2.symm⟩
      · rintro ⟨n, hn1, hn2⟩
        exact ⟨n, by simpa using hn1, hn2.symm⟩
    · unfold spawnChildren
      rw [hfu]
      rw [List.length_map]
      exact Finset.length_sort _
    · intro n hn
      exact Finset.inter_singleton_of_mem hn

/-- Witness for C6: the amended branching theorem applies to the uniform
grid, whose propagation fixpoint classifies as in-progress. -/
theorem c6_branching_amended_witness :
    solverLoop [uniformGrid] [] =
      solverLoop ([] ++ spawnChildren (applyAndValidate uniformGrid).1) [] :=
  (c6_branching_amended uniformGrid [] [] (by
    show classify (propagate uniformGrid) = 0
    rw [propagate_uniform]
    exact classify_uniform)).1

/-- The rule pipeline as the spec's gating sentence describes it: every rule
after `eliminateFound`, including `uniqueCell`, is skipped as soon as the
pass count is nonzero. -/
def onePassSpec (g : Grid) : Grid × ℕ :=
  gatedRule swordfish (gatedRule xWing (gatedRule lockedCandidates (gatedRule hiddenTuple
    (gatedRule nakedTuple (gatedRule uniqueCell (chainRule eliminateFound (g, 0)))))))

/-- A grid distinguishing the code's pipeline from the spec's description:
`eliminateFound` eliminates 1 from the cell at position 1, and `uniqueCell`
then still restricts position 9 to the digit 3 unique in its row. -/
def gatingGrid : Grid := fun p =>
  if p = 0 then {1} else if p = 1 then {1, 2} else if p = 9 then {3, 9} else {4, 5, 6}

/-- The gating grid after its one `eliminateFound` elimination. -/
def gatingGridA : Grid := Function.update gatingGrid 1 {2}

/-- The gating grid after the following `uniqueCell` restriction. -/
def gatingGridB : Grid := Function.update gatingGridA 9 (gatingGridA 9 ∩ {3})

/-- A gated rule is skipped once the pass has a nonzero count. -/
theorem gatedRule_skip {F : Grid → Grid × ℕ} {s : Grid × ℕ} (h : s.2 ≠ 0) :
    gatedRule F s = s := by
  unfold gatedRule
  rw [if_neg h]

/-- `elimFoundCell` does nothing when its cell is not a singleton or no other
cell of the nine intersects it. -/
theorem elimFoundCell_noop {nine : List ℕ} {s : Grid × ℕ} {cp : ℕ}
    (h : (s.1 cp).card = 1 →
      nine.filter (fun q => q ≠ cp ∧ (s.1 q ∩ s.1 cp).Nonempty) = []) :
    elimFoundCell nine s cp = s := by
  unfold elimFoundCell
  by_cases hc : (s.1 cp).card = 1
  · rw [if_pos hc, h hc, List.foldl_nil]
  · rw [if_neg hc]

/-- `uniqueCellDigit` does nothing when the digit is not found in exactly one
cell still holding other candidates. -/
theorem uniqueCellDigit_noop {nine : List ℕ} {s : Grid × ℕ} {i : ℕ}
    (h : ∀ q ∈ nine, nine.filter (fun r => decide (i ∈ s.1 r)) = [q] →
      ¬ 1 < (s.1 q).card) :
    uniqueCellDigit nine s i = s := by
  rcases hm : nine.filter (fun r => decide (i ∈ s.1 r)) with - | ⟨q, - | ⟨r, tl⟩⟩
  · simp [uniqueCellDigit, hm]
  · have hq : q ∈ nine := by
      have : q ∈ nine.filter (fun r => decide (i ∈ s.1 r)) := by
        rw [hm]
        exact List.mem_singleton_self q
      exact List.mem_of_mem_filter this
    simp [uniqueCellDigit, hm, if_neg (h q hq hm)]
  · simp [uniqueCellDigit, hm]

/-- On the gating grid, `eliminateFound` performs exactly one elimination. -/
theorem eliminateFound_gating : eliminateFound gatingGrid = (gatingGridA, 1) := by
  have hnines : gameNinesIdx =
      [0, 1, 2, 3, 4, 5, 6, 7, 8] :: gameNinesIdx.drop 1 := by decide
  unfold eliminateFound
  rw [hnines, List.foldl_cons]
  have hrow0 : [0, 1, 2, 3, 4, 5, 6, 7, 8].foldl
      (elimFoundCell [0, 1, 2, 3, 4, 5, 6, 7, 8]) (gatingGrid, 0) = (gatingGridA, 1) := by
    have hsplit : ([0, 1, 2, 3, 4, 5, 6, 7, 8] : List ℕ) =
        0 :: [1, 2, 3, 4, 5, 6, 7, 8] := rfl
    rw [hsplit, List.foldl_cons]
    have hstep : elimFoundCell (0 :: [1, 2, 3, 4, 5, 6, 7, 8]) (gatingGrid, 0) 0 =
        (gatingGridA, 1) := by
      unfold elimFoundCell
      rw [if_pos (by decide : (((gatingGrid, 0) : Grid × ℕ).1 0).card = 1)]
      have hf : (0 :: [1, 2, 3, 4, 5, 6, 7, 8] : List ℕ).filter
          (fun q => q ≠ 0 ∧ (((gatingGrid, 0) : Grid × ℕ).1 q ∩
            ((gatingGrid, 0) : Grid × ℕ).1 0).Nonempty) = [1] := by decide
      rw [hf]
      simp only [List.foldl_cons, List.foldl_nil, condUpdateStep, if_pos]
      have hv : gatingGrid 1 \ gatingGrid 0 = {2} := by decide
      simp [hv, gatingGridA]
    rw [hstep]
    apply foldl_fixed
    intro a ha
    apply elimFoundCell_noop
    revert a
    decide
  rw [hrow0]
  have htail : ∀ nine ∈ gameNinesIdx.drop 1, ∀ cp ∈ nine,
      ((gatingGridA cp).card = 1 →
        nine.filter (fun q => q ≠ cp ∧ (gatingGridA q ∩ gatingGridA cp).Nonempty) = []) := by
    decide
  apply foldl_fixed
  intro nine hnine
  apply foldl_fixed
  intro cp hcp
  exact elimFoundCell_noop (htail nine hnine cp hcp)

/-- On the grid left by `eliminateFound`, `uniqueCell` still performs one
more restriction. -/
theorem uniqueCell_gatingA : uniqueCell gatingGridA = (gatingGridB, 1) := by
  have hnines : gameNinesIdx =
      [0, 1, 2, 3, 4, 5, 6, 7, 8] :: [9, 10, 11, 12, 13, 14, 15, 16, 17] ::
        gameNinesIdx.drop 2 := by decide
  unfold uniqueCell
  rw [hnines, List.foldl_cons, List.foldl_cons]
  have hrow0 : (List.range' 1 9).foldl
      (uniqueCellDigit [0, 1, 2, 3, 4, 5, 6, 7, 8]) (gatingGridA, 0) = (gatingGridA, 0) := by
    have h0 : ∀ i ∈ List.range' 1 9, ∀ q ∈ ([0, 1, 2, 3, 4, 5, 6, 7, 8] : List ℕ),
        ([0, 1, 2, 3, 4, 5, 6, 7, 8] : List ℕ).filter
          (fun r => decide (i ∈ gatingGridA r)) = [q] → ¬ 1 < (gatingGridA q).card := by
      decide
    apply foldl_fixed
    intro i hi
    exact uniqueCellDigit_noop (h0 i hi)
  rw [hrow0]
  have hrow1 : (List.range' 1 9).foldl
      (uniqueCellDigit [9, 10, 11, 12, 13, 14, 15, 16, 17]) (gatingGridA, 0) =
      (gatingGridB, 1) := by
    have hr : List.range' 1 9 = [1, 2] ++ 3 :: [4, 5, 6, 7, 8, 9] := rfl
    rw [hr, List.foldl_append]
    have h12 : ([1, 2] : List ℕ).foldl
        (uniqueCellDigit [9, 10, 11, 12, 13, 14, 15, 16, 17]) (gatingGridA, 0) =
        (gatingGridA, 0) := by
      have h0 : ∀ i ∈ ([1, 2] : List ℕ), ∀ q ∈ ([9, 10, 11, 12, 13, 14, 15, 16, 17] : List ℕ),
          ([9, 10, 11, 12, 13, 14, 15, 16, 17] : List ℕ).filter
            (fun r => decide (i ∈ gatingGridA r)) = [q] → ¬ 1 < (gatingGridA q).card := by
        decide
      apply foldl_fixed
      intro i hi
      exact uniqueCellDigit_noop (h0 i hi)
    rw [h12, List.foldl_cons]
    have h3 : uniqueCellDigit [9, 10, 11, 12, 13, 14, 15, 16, 17] (gatingGridA, 0) 3 =
        (gatingGridB, 1) := by
      have hf : ([9, 10, 11, 12, 13, 14, 15, 16, 17] : List ℕ).filter
          (fun r => decide (3 ∈ (((gatingGridA, 0) : Grid × ℕ)).1 r)) = [9] := by decide
      unfold uniqueCellDigit
      rw [hf]
      show (if 1 < Finset.card ((gatingGridA, 0).1 9) then
          (Function.update (gatingGridA, 0).1 9 ((gatingGridA, 0).1 9 ∩ {3}),
            (gatingGridA, 0).2 + 1)
        else ((gatingGridA, 0) : Grid × ℕ)) = (gatingGridB, 1)
      rw [if_pos (by decide : 1 < Finset.card ((gatingGridA, 0).1 9))]
      rfl
    rw [h3]
    have h49 : ∀ i ∈ ([4, 5, 6, 7, 8, 9] : List ℕ),
        ∀ q ∈ ([9, 10, 11, 12, 13, 14, 15, 16, 17] : List ℕ),
        ([9, 10, 11, 12, 13, 14, 15, 16, 17] : List ℕ).filter
          (fun r => decide (i ∈ gatingGridB r)) = [q] → ¬ 1 < (gatingGridB q).card := by
      decide
    apply foldl_fixed
    intro i hi
    exact uniqueCellDigit_noop (h49 i hi)
  rw [hrow1]
  have htail : ∀ nine ∈ gameNinesIdx.drop 2, ∀ i ∈ List.range' 1 9, ∀ q ∈ nine,
      nine.filter (fun r => decide (i ∈ gatingGridB r)) = [q] →
        ¬ 1 < (gatingGridB q).card := by
    decide
  apply foldl_fixed
  intro nine hnine
  apply foldl_fixed
  intro i hi
  exact uniqueCellDigit_noop (htail nine hnine i hi)

/-- Counterexample to C7 as stated: on the gating grid `eliminateFound`
eliminates (the pass count is already nonzero), yet the code still runs
`uniqueCell`, which restricts cell 9 to `{3}`; under the spec's description
every later rule would be skipped and cell 9 would keep `{3, 9}`.  The code's
pass and the spec-described pass therefore differ. -/
theorem c7_rule_gating_cex :
    (eliminateFound gatingGrid).2 ≠ 0 ∧
    onePass gatingGrid ≠ onePassSpec gatingGrid ∧
    (onePass gatingGrid).1 9 = {3} ∧
    (onePassSpec gatingGrid).1 9 = {3, 9} := by
  have hchain1 : chainRule eliminateFound (gatingGrid, 0) = (gatingGridA, 1) := by
    simp [chainRule, eliminateFound_gating]
  have hchain2 : chainRule uniqueCell (gatingGridA, 1) = (gatingGridB, 2) := by
    simp [chainRule, uniqueCell_gatingA]
  have hskipB : ∀ F : Grid → Grid × ℕ, gatedRule F (gatingGridB, 2) = (gatingGridB, 2) :=
    fun F => gatedRule_skip (by decide)
  have hskipA : ∀ F : Grid → Grid × ℕ, gatedRule F (gatingGridA, 1) = (gatingGridA, 1) :=
    fun F => gatedRule_skip (by decide)
  have hcode : onePass gatingGrid = (gatingGridB, 2) := by
    unfold onePass
    rw [hchain1, hchain2]
    rw [hskipB, hskipB, hskipB, hskipB, hskipB]
  have hspec : onePassSpec gatingGrid = (gatingGridA, 1) := by
    unfold onePassSpec
    rw [hchain1]
    rw [hskipA, hskipA, hskipA, hskipA, hskipA, hskipA]
  refine ⟨by rw [eliminateFound_gating]; decide, ?_, ?_, ?_⟩
  · rw [hcode, hspec]
    intro h
    have h9 : gatingGridB 9 = gatingGridA 9 := by
      have := congrArg (fun s : Grid × ℕ => s.1 9) h
      simpa using this
    rw [show gatingGridB 9 = {3} from by decide,
      show gatingGridA 9 = ({3, 9} : Finset ℕ) from by decide] at h9
    exact absurd h9 (by decide)
  · rw [hcode]
    decide
  · rw [hspec]
    decide

/-- C7 (amended): within a pass the rules run in the fixed order
`eliminateFound`, `uniqueCell`, `nakedTuple`, `hiddenTuple`,
`lockedCandidates`, `xWing`, `swordfish`; `eliminateFound` and `uniqueCell`
both always run and add to the running count, and each of the five later
rules is skipped exactly when the count of the pass is already nonzero. -/
theorem c7_rule_gating :
    (∀ (F : Grid → Grid × ℕ) (s : Grid × ℕ), s.2 ≠ 0 → gatedRule F s = s) ∧
    (∀ (F : Grid → Grid × ℕ) (s : Grid × ℕ), s.2 = 0 → gatedRule F s = chainRule F s) ∧
    (∀ (F : Grid → Grid × ℕ) (s : Grid × ℕ),
      chainRule F s = ((F s.1).1, s.2 + (F s.1).2)) ∧
    (∀ g : Grid, onePass g =
      gatedRule swordfish (gatedRule xWing (gatedRule lockedCandidates (gatedRule hiddenTuple
        (gatedRule nakedTuple (chainRule uniqueCell (chainRule eliminateFound (g, 0)))))))) := by
  refine ⟨fun F s h => gatedRule_skip h, fun F s h => ?_, fun F s => rfl, fun g => rfl⟩
  unfold gatedRule
  rw [if_pos h]

/-- Membership in a fold of cell unions. -/
theorem mem_foldr_union (g : Grid) (l : List ℕ) (d : ℕ) :
    d ∈ l.foldr (fun p acc => g p ∪ acc) ∅ ↔ ∃ p ∈ l, d ∈ g p := by
  induction l with
  | nil => simp
  | cons a tl ih => simp [ih]

/-- C8: the `lockedCandidates` rule, per triplet and digit.  The digits
considered are those of the triplet's still-undetermined cells; a digit in
the line sisters but not the square sisters is removed from exactly the
line-sister cells containing it and counted once per removal, symmetrically
for the square sisters, and a digit in both or neither changes nothing.  The
rule is the fold of this digit action over the 54 triplets. -/
theorem c8_locked_candidates (lineSis squSis : List ℕ) (hlnd : lineSis.Nodup)
    (hsnd : squSis.Nodup) (inLine inSquare : Finset ℕ) (g : Grid) (c : ℕ) (num : ℕ) :
    (∀ (cells : List ℕ) (d : ℕ),
      d ∈ tripletDigits g cells ↔ ∃ p ∈ cells, 1 < (g p).card ∧ d ∈ g p) ∧
    (∀ (cells : List ℕ) (d : ℕ),
      d ∈ sisterDigits g cells ↔ ∃ p ∈ cells, d ∈ g p) ∧
    (num ∈ inLine → num ∉ inSquare →
      (∀ q, (lockedNum lineSis squSis inLine inSquare (g, c) num).1 q =
        if q ∈ lineSis ∧ num ∈ g q then g q \ {num} else g q) ∧
      (lockedNum lineSis squSis inLine inSquare (g, c) num).2 =
        c + lineSis.countP (fun q => decide (num ∈ g q))) ∧
    (num ∈ inSquare → num ∉ inLine →
      (∀ q, (lockedNum lineSis squSis inLine inSquare (g, c) num).1 q =
        if q ∈ squSis ∧ num ∈ g q then g q \ {num} else g q) ∧
      (lockedNum lineSis squSis inLine inSquare (g, c) num).2 =
        c + squSis.countP (fun q => decide (num ∈ g q))) ∧
    ((num ∈ inLine ↔ num ∈ inSquare) →
      lockedNum lineSis squSis inLine inSquare (g, c) num = (g, c)) ∧
    lockedCandidates g = gameTripletsIdx.foldl lockedTriplet (g, 0) ∧
    (∀ t : TripletIdx, lockedTriplet (g, c) t =
      ((tripletDigits g t.1).sort (· ≤ ·)).foldl
        (lockedNum t.2.1 t.2.2 (sisterDigits g t.2.1) (sisterDigits g t.2.2)) (g, c)) := by
  refine ⟨?_, ?_, ?_, ?_, ?_, rfl, fun t => rfl⟩
  · intro cells d
    unfold tripletDigits
    rw [mem_foldr_union]
    constructor
    · rintro ⟨p, hp, hd⟩
      rw [List.mem_filter] at hp
      exact ⟨p, hp.1, by simpa using hp.2, hd⟩
    · rintro ⟨p, hp, hc, hd⟩
      exact ⟨p, List.mem_filter.mpr ⟨hp, by simpa using hc⟩, hd⟩
  · intro cells d
    unfold sisterDigits
    exact mem_foldr_union g cells d
  · intro h1 h2
    have heq : lockedNum lineSis squSis inLine inSquare (g, c) num =
        lineSis.foldl (condUpdateStep (fun _ v => decide (num ∈ v))
          (fun v => v \ {num})) (g, c) := by
      unfold lockedNum
      rw [if_neg (fun hc : num ∈ inSquare ∧ num ∉ inLine => h2 hc.1),
        if_pos ⟨h1, h2⟩]
    rw [heq]
    constructor
    · intro q
      rw [condUpdateFold_fst _ _ lineSis hlnd g c q]
      simp only [decide_eq_true_eq]
    · rw [condUpdateFold_snd _ _ lineSis hlnd g c]
  · intro h1 h2
    have heq : lockedNum lineSis squSis inLine inSquare (g, c) num =
        squSis.foldl (condUpdateStep (fun _ v => decide (num ∈ v))
          (fun v => v \ {num})) (g, c) := by
      unfold lockedNum
      rw [if_pos ⟨h1, h2⟩, if_neg (fun hc : num ∈ inLine ∧ num ∉ inSquare => h2 hc.1)]
    rw [heq]
    constructor
    · intro q
      rw [condUpdateFold_fst _ _ squSis hsnd g c q]
      simp only [decide_eq_true_eq]
    · rw [condUpdateFold_snd _ _ squSis hsnd g c]
  · intro hiff
    unfold lockedNum
    rw [if_neg (fun hc : num ∈ inSquare ∧ num ∉ inLine => hc.2 (hiff.mpr hc.1)),
      if_neg (fun hc : num ∈ inLine ∧ num ∉ inSquare => hc.2 (hiff.mp hc.1))]

/-- Witness for C8: a digit locked to its line on the uniform grid is removed
from the line sisters and counted once per cell. -/
theorem c8_locked_candidates_witness :
    (lockedNum [3, 4, 5] [12, 21] {7} ∅ (uniformGrid, 0) 7).2 =
      0 + [3, 4, 5].countP (fun q => decide (7 ∈ uniformGrid q)) :=
  ((c8_locked_candidates [3, 4, 5] [12, 21] (by decide) (by decide) {7} ∅ uniformGrid 0 7).2.2.1
    (by decide) (by decide)).2

/-- Flat heap address of cell `p` of the game state allocated with base `b`:
the Python objects live at disjoint addresses because every clone is a fresh
allocation (`deepcopy` of the rows and `setupGame` of the views). -/
def cellAddr (b p : ℕ) : ℕ := 81 * b + p

/-- Separation of the search queue: the queued states' bases are pairwise
distinct and all below the allocation counter. -/
def QueueSep : List ℕ × ℕ → Prop := fun qc => qc.1.Nodup ∧ ∀ b ∈ qc.1, b < qc.2

/-- One allocation step of the search loop: pop the head state, allocate `k`
child states at fresh bases from the counter and append them to the queue. -/
def stepAlloc (k : ℕ) : List ℕ × ℕ → List ℕ × ℕ
  | ([], ctr) => ([], ctr)
  | (b :: rest, ctr) => (rest ++ (List.range k).map (fun i => ctr + i), ctr + k)

/-- C9: clone isolation.  Fresh allocation preserves separation of the queue,
and under separation a write to any cell of one state is invisible to every
cell of every differently-based state — mutating one branch's clone never
alters a sibling or ancestor state. -/
theorem c9_clone_isolation :
    (∀ (k : ℕ) (qc : List ℕ × ℕ), QueueSep qc → QueueSep (stepAlloc k qc)) ∧
    (∀ (H : ℕ → Cell) (b b' p p' : ℕ) (v : Cell), b ≠ b' → p < 81 → p' < 81 →
      Function.update H (cellAddr b' p') v (cellAddr b p) = H (cellAddr b p)) := by
  constructor
  · rintro k ⟨queue, ctr⟩ hsep
    cases queue with
    | nil => exact hsep
    | cons b rest =>
      obtain ⟨hnd, hlt⟩ := hsep
      show (rest ++ (List.range k).map (fun i => ctr + i)).Nodup ∧
        ∀ a ∈ rest ++ (List.range k).map (fun i => ctr + i), a < ctr + k
      constructor
      · rw [List.nodup_append]
        refine ⟨(List.nodup_cons.mp hnd).2, ?_, ?_⟩
        · exact List.Nodup.map (fun a b hab => by omega) (List.nodup_range k)
        · intro a ha hamem
          rw [List.mem_map] at hamem
          obtain ⟨i, hi, hie⟩ := hamem
          have hlt2 : a < ctr := hlt a (List.mem_cons_of_mem b ha)
          omega
      · intro a ha
        rw [List.mem_append] at ha
        rcases ha with h | h
        · have := hlt a (List.mem_cons_of_mem b h)
          omega
        · rw [List.mem_map] at h
          obtain ⟨i, hi, rfl⟩ := h
          have := List.mem_range.mp hi
          omega
  · intro H b b' p p' v hne hp hp'
    apply Function.update_noteq
    intro he
    unfold cellAddr at he
    omega

/-- C10: a state `applyAndValidate` reports solved has no empty cell (the
emptiness check has precedence) and, the 81 cell sizes summing to 81, every
cell is a singleton; the extraction of the single element of each cell is
therefore total and never reads an empty cell. -/
theorem c10_solved_singletons (g : Grid) (h : (applyAndValidate g).2 = 1) :
    ∀ p < 81, (applyAndValidate g).1 p ≠ ∅ ∧
      ((applyAndValidate g).1 p).card = 1 ∧
      (applyAndValidate g).1 p = {extractCell ((applyAndValidate g).1 p)} := by
  have h' : classify (propagate g) = 1 := h
  rw [classify_eq_one_iff] at h'
  obtain ⟨hne, hlen⟩ := h'
  have hno : ∀ p < 81, propagate g p ≠ ∅ := noempty_of_any_false hne
  unfold totalLen at hlen
  intro p hp
  have hcard : (propagate g p).card = 1 := by
    have hsplit : (propagate g p).card +
        ∑ q ∈ (Finset.range 81).erase p, (propagate g q).card =
        ∑ q ∈ Finset.range 81, (propagate g q).card :=
      Finset.add_sum_erase (Finset.range 81) (fun q => (propagate g q).card)
        (Finset.mem_range.mpr hp)
    have h80 : ∑ q ∈ (Finset.range 81).erase p, 1 ≤
        ∑ q ∈ (Finset.range 81).erase p, (propagate g q).card := by
      apply Finset.sum_le_sum
      intro i hi
      have hi81 : i < 81 := Finset.mem_range.mp (Finset.mem_of_mem_erase hi)
      exact Finset.card_pos.mpr (Finset.nonempty_iff_ne_empty.mpr (hno i hi81))
    have hc80 : ∑ q ∈ (Finset.range 81).erase p, 1 = 80 := by
      rw [Finset.sum_const, Finset.card_erase_of_mem (Finset.mem_range.mpr hp)]
      simp
    have hpos : 0 < (propagate g p).card :=
      Finset.card_pos.mpr (Finset.nonempty_iff_ne_empty.mpr (hno p hp))
    omega
  obtain ⟨v, hv⟩ := Finset.card_eq_one.mp hcard
  show propagate g p ≠ ∅ ∧ (propagate g p).card = 1 ∧
    propagate g p = {extractCell (propagate g p)}
  refine ⟨hno p hp, hcard, ?_⟩
  rw [hv, extractCell_singleton]

/-- Witness for C10: the start state of the complete concrete puzzle is
classified solved, and its first cell is the singleton its extraction
returns. -/
theorem c10_solved_singletons_witness :
    (applyAndValidate (startState completeGrid)).1 0 ≠ ∅ ∧
    ((applyAndValidate (startState completeGrid)).1 0).card = 1 ∧
    (applyAndValidate (startState completeGrid)).1 0 =
      {extractCell ((applyAndValidate (startState completeGrid)).1 0)} :=
  c10_solved_singletons (startState completeGrid) (by
    show classify (propagate (startState completeGrid)) = 1
    rw [propagate_solved (by decide) (by decide)]
    exact classify_solved (by decide)) 0 (by decide)
